import Mathlib

/-!
Verification of the QCEC portfolio orchestrator against its specification.

This file gives a shallow embedding of the core logic of
`src/EquivalenceCheckingManager.cpp`, `src/ProcessManager.cpp` and
`src/checker/zx/ZXChecker.cpp`: the verdict enumeration, the ZX checker's
`run` control flow, the preprocessing steps of the manager constructor
(optimization passes, idle-qubit stripping, ancilla reconciliation, the
`maxSims` clamp) and the two runners (`runSequentialChecks` and the
`checkParallel` completion loop), together with theorems settling the
specification claims.

Machine integers (`std::size_t`) are modelled as `Nat` with explicit
wrap-around (`% 2 ^ 64`) where the C++ code can underflow.  Engines are
external collaborators (the spec's Engine Task contract); their verdicts
enter the models as parameters, fixed per engine instance, matching
deterministic engines.
-/

namespace QCEC

/-- Verdicts of an equivalence check (enum `EquivalenceCriterion` in
`include/EquivalenceCriterion.hpp`; its seven values are used throughout
`src/EquivalenceCheckingManager.cpp` and listed in the spec). -/
inductive EquivalenceCriterion where
  | NoInformation
  | NotEquivalent
  | ProbablyNotEquivalent
  | ProbablyEquivalent
  | EquivalentUpToPhase
  | EquivalentUpToGlobalPhase
  | Equivalent
  deriving DecidableEq, Repr

/-- Exception class codes carried across the process boundary
(enum `ExceptionType` in `include/ProcessManager.hpp`). -/
inductive ExceptionType where
  | None
  | InvalidArgument
  | RuntimeError
  | LogicError
  | Other
  deriving DecidableEq, Repr

/-- Engine kinds as tracked by `checkParallel` (local `enum class ProcessType`
in `src/EquivalenceCheckingManager.cpp`). -/
inductive ProcessType where
  | Alternating
  | Construction
  | ZX
  | Simulation
  deriving DecidableEq, Repr

/-- State types for the simulation checker
(`include/checker/dd/simulation/StateType.hpp`). -/
inductive StateType where
  | ComputationalBasis
  | Random1QBasis
  | Stabilizer
  deriving DecidableEq, Repr

/-- Unsigned 64-bit subtraction as performed on `std::size_t` values in the
C++ source: the difference wraps modulo `2 ^ 64` (both arguments are assumed
below `2 ^ 64`). -/
def szSub (x y : Nat) : Nat := (x + 2 ^ 64 - y) % 2 ^ 64

/-- Configuration fields consulted by the runners.  The flags mirror
`Configuration::Execution` (`runAlternatingChecker`, …) and
`Configuration::Simulation::maxSims`; `nthreads` mirrors
`Configuration::Execution::nthreads`. -/
structure Config where
  runAlternating : Bool
  runConstruction : Bool
  runSimulation : Bool
  runZX : Bool
  nthreads : Nat
  maxSims : Nat
  deriving DecidableEq, Repr

/-- Modelled from the spec: `Configuration::onlyZXCheckerConfigured` lives in
`Configuration.hpp`, which is not among the provided sources; per the spec's
Engine Selector and runner descriptions it holds exactly when the ZX checker
is the only enabled checker. -/
def Config.onlyZXCheckerConfigured (c : Config) : Bool :=
  !c.runConstruction && !c.runSimulation && !c.runAlternating && c.runZX

/-- Modelled from the spec: `Configuration::onlySimulationCheckerConfigured`
lives in `Configuration.hpp`, which is not among the provided sources; per
the spec it holds exactly when the simulation checker is the only enabled
checker. -/
def Config.onlySimulationCheckerConfigured (c : Config) : Bool :=
  c.runSimulation && !c.runAlternating && !c.runConstruction && !c.runZX

/-! ### ZX checker (`src/checker/zx/ZXChecker.cpp`) -/

/-- The `ancilla` member set in the `ZXEquivalenceChecker` constructor:
`true` iff either circuit has a nonzero number of ancillae
(`qc1->getNancillae() != 0U || qc2->getNancillae() != 0U`). -/
def zxAncillaFlag (nanc1 nanc2 : Nat) : Bool :=
  decide (nanc1 ≠ 0) || decide (nanc2 ≠ 0)

/-- Abstract state of the ZX miter observed by `ZXEquivalenceChecker::run`:
`nQubitsZero` is `miter.getNQubits() == 0` at entry; `phaseZeroStart` is
`miter.globalPhaseIsZero()` at entry; `reductionEquivalent` abstracts the
outcome of the edge/permutation checks after `fullReduceApproximate` (the
local `equivalent` flag); `phaseZeroEnd` is `miter.globalPhaseIsZero()` after
reduction; `aborted` is `isDone()`. -/
structure ZXRunState where
  nQubitsZero : Bool
  phaseZeroStart : Bool
  reductionEquivalent : Bool
  phaseZeroEnd : Bool
  aborted : Bool
  deriving DecidableEq, Repr

/-- Verdict computation of `ZXEquivalenceChecker::run`: an empty miter is
equivalent (possibly up to global phase); otherwise non-equivalence in the
presence of ancillae, or an aborted run, yields `NoInformation`; a fully
reduced identity yields `Equivalent`/`EquivalentUpToGlobalPhase`; remaining
non-equivalence yields `ProbablyNotEquivalent`. -/
def zxRun (ancilla : Bool) (s : ZXRunState) : EquivalenceCriterion :=
  if s.nQubitsZero then
    if s.phaseZeroStart then .Equivalent else .EquivalentUpToGlobalPhase
  else if (!s.reductionEquivalent && ancilla) || s.aborted then
    .NoInformation
  else if s.reductionEquivalent then
    if s.phaseZeroEnd then .Equivalent else .EquivalentUpToGlobalPhase
  else
    .ProbablyNotEquivalent

/-- Static predicate `ZXEquivalenceChecker::canHandle`: no non-garbage
ancillae are allowed (`nancillae - ngarbage != 0`, computed in unsigned
arithmetic) and both circuits must be ZX-transformable. -/
def zxCanHandle (nanc1 ngarb1 nanc2 ngarb2 : Nat)
    (transformable1 transformable2 : Bool) : Bool :=
  if szSub nanc1 ngarb1 ≠ 0 || szSub nanc2 ngarb2 ≠ 0 then false
  else transformable1 && transformable2

/-- Helper: `zxRun` never produces `NotEquivalent`, for any miter state. -/
theorem zxRun_ne_notEquivalent (ancilla : Bool) (s : ZXRunState) :
    zxRun ancilla s ≠ .NotEquivalent := by
  unfold zxRun
  cases s.nQubitsZero <;> cases s.phaseZeroStart <;>
    cases s.reductionEquivalent <;> cases s.phaseZeroEnd <;>
      cases s.aborted <;> cases ancilla <;> simp

/-! ### Manager constructor preprocessing
(`src/EquivalenceCheckingManager.cpp`) -/

/-- Error behaviour of `EquivalenceCheckingManager::runOptimizationPasses`:
nothing happens when both circuits are empty; a dynamic circuit without
`transformDynamicCircuit` raises a `std::runtime_error` (class
`RuntimeError` in the taxonomy of `ProcessManager.hpp`); otherwise the
passes succeed.  The circuit-rewriting passes themselves are external
(`CircuitOptimizer`) and have no error behaviour modelled here. -/
def runOptimizationPasses (qc1Empty qc2Empty dyn1 dyn2
    transformDynamicCircuit : Bool) : Except ExceptionType Unit :=
  if qc1Empty && qc2Empty then .ok ()
  else if dyn1 || dyn2 then
    if transformDynamicCircuit then .ok () else .error .RuntimeError
  else .ok ()

/-- The constructor `EquivalenceCheckingManager::EquivalenceCheckingManager`
runs the optimization passes only when both circuits are variable-free. -/
def managerConstructPasses (variableFree qc1Empty qc2Empty dyn1 dyn2
    transformDynamicCircuit : Bool) : Except ExceptionType Unit :=
  if variableFree then
    runOptimizationPasses qc1Empty qc2Empty dyn1 dyn2 transformDynamicCircuit
  else .ok ()

/-- Branches of one iteration of the `stripIdleQubits` loop, at the level of
qubit counts: the iteration either removes nothing (qubit not idle or not
safely removable), removes an idle qubit exclusively present in the larger
circuit (only taken while the remaining qubit difference is positive), or
removes a qubit idle in both circuits from both. -/
inductive StripCase where
  | skip
  | removeLarger
  | removeBoth
  deriving DecidableEq, Repr

/-- Count-level model of `EquivalenceCheckingManager::stripIdleQubits`:
larger and smaller circuit are fixed once at entry (`qc1` if
`qc1.getNqubits() > qc2.getNqubits()`, else `qc2`); the loop walks a list of
per-qubit decisions, removing a qubit from the larger circuit (while the
tracked `qubitDifference` is positive) or from both.  `qc::QuantumComputation
::removeQubit` is external; the spec specifies that it drops exactly one
qubit, which is all this count-level model uses. -/
def stripIdleQubits (n1 n2 : Nat) (ds : List StripCase) : Nat × Nat :=
  let firstIsLarger := decide (n1 > n2)
  let init : Nat × Nat × Nat :=
    if firstIsLarger then (n1, n2, n1 - n2) else (n2, n1, n2 - n1)
  let fin := ds.foldl
    (fun acc d =>
      match d with
      | .skip => acc
      | .removeLarger =>
          if acc.2.2 > 0 then (acc.1 - 1, acc.2.1, acc.2.2 - 1) else acc
      | .removeBoth => (acc.1 - 1, acc.2.1 - 1, acc.2.2))
    init
  if firstIsLarger then (fin.1, fin.2.1) else (fin.2.1, fin.1)

/-- Count-level model of
`EquivalenceCheckingManager::setupAncillariesAndGarbage`: with
`d = |larger| - |smaller|`, the function returns early when `d = 0`;
otherwise it removes the `d` highest-logical qubits from the larger circuit,
adds an ancillary register of width `d` to the smaller circuit
(`addAncillaryRegister`), and re-adds the removed qubits to the larger
circuit as ancillae (`addAncillaryQubit`), restoring garbage flags.  The
circuit mutators are external; the spec specifies their effect on the qubit
count (remove one, add `d`, add one), which is what this model uses. -/
def setupAncillariesAndGarbage (n1 n2 : Nat) : Nat × Nat :=
  if n1 > n2 then
    let d := n1 - n2
    if d = 0 then (n1, n2) else ((n1 - d) + d, n2 + d)
  else
    let d := n2 - n1
    if d = 0 then (n1, n2) else (n1 + d, (n2 - d) + d)

/-- Qubit-count normalization as performed by the manager constructor:
`stripIdleQubits` followed by `setupAncillariesAndGarbage`. -/
def normalizeQubitCounts (n1 n2 : Nat) (ds : List StripCase) : Nat × Nat :=
  let s := stripIdleQubits n1 n2 ds
  setupAncillariesAndGarbage s.1 s.2

/-! ### Parallel runner (`EquivalenceCheckingManager::checkParallel`)

Each spawned process eventually delivers one `ProcessResult` through
`ProcessManager::waitForAny`; with deterministic engines that outcome is
fixed at spawn time, so the model attaches it to the process.  The
completion ORDER is scheduler-dependent and enters the model as an explicit
schedule: a list of choices of which running process completes next. -/

/-- Eventual `ProcessResult` of one worker (see `ProcessManager.hpp` and the
POSIX `waitForAny`): a worker whose pipe delivers data is `completed` and
carries the verdict and the exception class written by the child (children
that threw write `NoInformation` plus the class); a worker that died without
writing is not `completed`. -/
structure Outcome where
  completed : Bool
  verdict : EquivalenceCriterion
  exc : ExceptionType
  deriving DecidableEq, Repr

/-- An `Outcome` of a worker that ran to completion without throwing. -/
def Outcome.ok (v : EquivalenceCriterion) : Outcome :=
  ⟨true, v, .None⟩

/-- Static data of one `checkParallel` invocation: the configuration, the
result of the two `transformableToZX` checks (line 497), and the outcome of
each deterministic engine (`simOut i` is the outcome of the `i`-th spawned
simulation trial, in spawn order, matching `startedSimulations`). -/
structure ParCtx where
  cfg : Config
  zxTransformable : Bool
  altOut : Outcome
  conOut : Outcome
  zxOut : Outcome
  simOut : Nat → Outcome

/-- Effective ZX flag inside `checkParallel`: the checker is disabled when
the circuits are not ZX-transformable
(`configuration.execution.runZXChecker = false`, line 501). -/
def ParCtx.runZXPar (ctx : ParCtx) : Bool :=
  ctx.cfg.runZX && ctx.zxTransformable

/-- Configuration as seen by the helper predicates inside the `checkParallel`
loop, after the possible disabling of the ZX checker. -/
def ParCtx.cfgPar (ctx : ParCtx) : Config :=
  { ctx.cfg with runZX := ctx.runZXPar }

/-- Number of tasks to execute (lines 486-503). -/
def ParCtx.tasksToExecute (ctx : ParCtx) : Nat :=
  (if ctx.cfg.runAlternating then 1 else 0) +
    (if ctx.cfg.runConstruction then 1 else 0) +
    (if ctx.cfg.runSimulation then ctx.cfg.maxSims else 0) +
    (if ctx.runZXPar then 1 else 0)

/-- `effectiveProcesses = min(maxProcesses, tasksToExecute)` (line 505). -/
def ParCtx.effectiveProcesses (ctx : ParCtx) : Nat :=
  min ctx.cfg.nthreads ctx.tasksToExecute

/-- Mutable state of the `checkParallel` loop: the accumulated
`results.equivalence`, the two simulation counters, the running processes
(in spawn order, each with its engine kind and eventual outcome), the `done`
flag, and whether the loop exited through a `waitForAny` timeout. -/
structure ParState where
  results : EquivalenceCriterion
  started : Nat
  performed : Nat
  running : List (ProcessType × Outcome)
  done : Bool
  timedOut : Bool
  deriving DecidableEq, Repr

/-- Initial spawns of `checkParallel` (lines 507-549): alternating,
construction and ZX checkers are spawned unconditionally when configured;
then `min(effectiveProcesses - numRunningProcesses, maxSims)` simulation
trials are started, the subtraction being unsigned (`std::size_t`)
arithmetic. -/
def parInit (ctx : ParCtx) : ParState :=
  let base : List (ProcessType × Outcome) :=
    (if ctx.cfg.runAlternating then [(.Alternating, ctx.altOut)] else []) ++
    (if ctx.cfg.runConstruction then [(.Construction, ctx.conOut)] else []) ++
    (if ctx.runZXPar then [(.ZX, ctx.zxOut)] else [])
  let simulationsToStart :=
    if ctx.cfg.runSimulation then
      min (szSub ctx.effectiveProcesses base.length) ctx.cfg.maxSims
    else 0
  { results := .NoInformation
    started := simulationsToStart
    performed := 0
    running :=
      base ++ (List.range simulationsToStart).map
        (fun i => (.Simulation, ctx.simOut i))
    done := false
    timedOut := false }

/-- Handling of one completed, exception-free `ProcessResult` in the
`checkParallel` loop (lines 588-704), applied to the state after the
finished process has been removed from the process manager:
`NoInformation` from the ZX checker is decisive only when ZX is the sole
checker, while from any other checker it sets the verdict to
`NoInformation` and stops; `NotEquivalent` is always decisive (bumping
`performedSimulations` for a simulation); alternating and construction
verdicts are decisive; ZX `Equivalent`/`EquivalentUpToGlobalPhase` are
decisive and `ProbablyNotEquivalent` is fused against the current verdict
and the simulation progress; a simulation completion bumps
`performedSimulations`, promotes `NoInformation` to `ProbablyEquivalent`,
resolves the contradictory case when all simulations are finished, and
otherwise refills the simulation slot. -/
def handleCompleted (ctx : ParCtx) (st : ParState) (t : ProcessType)
    (v : EquivalenceCriterion) : ParState :=
  if v = .NoInformation then
    if t = .ZX then
      if ctx.cfgPar.onlyZXCheckerConfigured then { st with done := true }
      else st
    else { st with results := .NoInformation, done := true }
  else if v = .NotEquivalent then
    { st with
      results := .NotEquivalent
      performed :=
        if t = .Simulation then st.performed + 1 else st.performed
      done := true }
  else if t = .Alternating ∨ t = .Construction then
    { st with results := v, done := true }
  else if t = .ZX then
    if v = .Equivalent ∨ v = .EquivalentUpToGlobalPhase then
      { st with results := v, done := true }
    else if v = .ProbablyNotEquivalent then
      if st.results = .ProbablyEquivalent then
        if st.performed = ctx.cfg.maxSims then
          { st with results := .NoInformation, done := true }
        else { st with results := .ProbablyNotEquivalent }
      else if st.results = .NoInformation then
        if ctx.cfgPar.onlyZXCheckerConfigured then
          { st with results := .ProbablyNotEquivalent, done := true }
        else { st with results := .ProbablyNotEquivalent }
      else st
    else st
  else
    let st1 := { st with performed := st.performed + 1 }
    let st2 :=
      if st1.results = .NoInformation then
        { st1 with results := .ProbablyEquivalent }
      else st1
    if st2.performed = ctx.cfg.maxSims then
      if ctx.cfgPar.onlySimulationCheckerConfigured then
        { st2 with done := true }
      else if st2.results = .ProbablyNotEquivalent then
        { st2 with results := .NoInformation, done := true }
      else st2
    else
      if st2.started < ctx.cfg.maxSims ∧
          st2.running.length < ctx.effectiveProcesses then
        { st2 with
          running := st2.running ++ [(.Simulation, ctx.simOut st2.started)]
          started := st2.started + 1 }
      else st2

/-- One `waitForAny` delivery in the `checkParallel` loop: the schedule entry
chooses (modulo the number of running processes) which process completes.
The process is removed; an exception in the child is re-raised in the parent
(lines 566-579), a non-completed process is logged and skipped (lines
583-586), and a completed result is fused by `handleCompleted`. -/
def parStep (ctx : ParCtx) (st : ParState) (choice : Nat) :
    Except ExceptionType ParState :=
  let idx := choice % st.running.length
  let proc := st.running.getD idx (.Simulation, Outcome.ok .NoInformation)
  let st1 := { st with running := st.running.eraseIdx idx }
  if proc.2.exc ≠ .None then .error proc.2.exc
  else if !proc.2.completed then .ok st1
  else .ok (handleCompleted ctx st1 proc.1 proc.2.verdict)

/-- The `checkParallel` wait loop (lines 552-705): while processes are
running and no decisive verdict has been reached, wait for the next
completion; an exhausted schedule models a `waitForAny` timeout, which ends
the loop with the accumulated results (lines 555-559). -/
def parRun (ctx : ParCtx) : List Nat → ParState → Except ExceptionType ParState
  | [], st =>
      if st.running.isEmpty || st.done then .ok st
      else .ok { st with done := true, timedOut := true }
  | choice :: rest, st =>
      if st.running.isEmpty || st.done then .ok st
      else
        match parStep ctx st choice with
        | .error e => .error e
        | .ok st1 => parRun ctx rest st1

/-- Final verdict of a `checkParallel` invocation under a given completion
schedule. -/
def checkParallelResult (ctx : ParCtx) (sched : List Nat) :
    Except ExceptionType EquivalenceCriterion :=
  (parRun ctx sched (parInit ctx)).map (·.results)

/-- The `maxSims` clamp in the manager constructor: when the simulation
checker is enabled and computational-basis states are used, and the number
of non-ancillary qubits `nq` is at most 63 while `maxSims` exceeds
`1ULL << nq` unique basis states, `maxSims` is set to that count. -/
def clampMaxSims (runSimulation : Bool) (stateType : StateType)
    (nq maxSims : Nat) : Nat :=
  if runSimulation && decide (stateType = .ComputationalBasis) then
    let uniqueStates := 2 ^ nq
    if decide (nq ≤ 63) && decide (maxSims > uniqueStates) then uniqueStates
    else maxSims
  else maxSims

/-! ### Sequential runner
(`EquivalenceCheckingManager::runSequentialChecks`, lines 731-823) -/

/-- Static data of one `runSequentialChecks` invocation: the configuration,
the result of `ZXEquivalenceChecker::canHandle(qc1, qc2)` (line 799), and
the verdict of each deterministic engine (`simV i` is the verdict of the
`i`-th simulation trial; the sequential runner draws trials from the shared
state generator in index order). -/
structure SeqCtx where
  cfg : Config
  zxHandles : Bool
  altV : EquivalenceCriterion
  conV : EquivalenceCriterion
  zxV : EquivalenceCriterion
  simV : Nat → EquivalenceCriterion

/-- Result of `runSequentialChecks`, together with the simulation counters
of `Results` and the list of engine completions in execution order. -/
structure SeqRes where
  verdict : EquivalenceCriterion
  started : Nat
  performed : Nat
  trace : List (ProcessType × EquivalenceCriterion)
  deriving Repr

/-- The simulation loop of `runSequentialChecks` (lines 740-764): trials run
while `performedSimulations < maxSims`; a trial yielding `NoInformation` or
`NotEquivalent` ends the whole sequential run with that verdict (after
bumping both counters); any other verdict sets the local verdict to
`ProbablyEquivalent` and continues.  The function returns the early-return
verdict, if any, and the number of trials executed (the final value of both
counters, which the loop keeps equal). -/
def seqSimLoop (simV : Nat → EquivalenceCriterion) :
    Nat → Nat → Option EquivalenceCriterion × Nat
  | 0, _ => (none, 0)
  | k + 1, idx =>
      match simV idx with
      | .NoInformation => (some .NoInformation, 1)
      | .NotEquivalent => (some .NotEquivalent, 1)
      | _ =>
          let r := seqSimLoop simV k (idx + 1)
          (r.1, r.2 + 1)

/-- `EquivalenceCheckingManager::runSequentialChecks`: simulation trials
first (with an early return on `NoInformation` or `NotEquivalent`, and an
early return of the local verdict when only simulations are configured),
then the alternating checker (any verdict other than `NoInformation` is
final), then the construction checker (same), then, if `canHandle` holds,
the ZX checker with its asymmetric fusion; the accumulated local verdict is
returned otherwise. -/
def runSequentialChecks (ctx : SeqCtx) : SeqRes :=
  let ms := ctx.cfg.maxSims
  let simPart :=
    if ctx.cfg.runSimulation then seqSimLoop ctx.simV ms 0 else (none, 0)
  let n := simPart.2
  let simTrace :=
    (List.range n).map (fun i => (ProcessType.Simulation, ctx.simV i))
  let vt : EquivalenceCriterion × List (ProcessType × EquivalenceCriterion) :=
    match simPart.1 with
    | some v => (v, simTrace)
    | none =>
      let localEq : EquivalenceCriterion :=
        if ctx.cfg.runSimulation && decide (0 < ms) then .ProbablyEquivalent
        else .NoInformation
      if ctx.cfg.runSimulation &&
          ctx.cfg.onlySimulationCheckerConfigured then
        (localEq, simTrace)
      else
        let trace1 :=
          simTrace ++
            (if ctx.cfg.runAlternating then
              [(ProcessType.Alternating, ctx.altV)]
             else [])
        if ctx.cfg.runAlternating && decide (ctx.altV ≠ .NoInformation) then
          (ctx.altV, trace1)
        else
          let trace2 :=
            trace1 ++
              (if ctx.cfg.runConstruction then
                [(ProcessType.Construction, ctx.conV)]
               else [])
          if ctx.cfg.runConstruction &&
              decide (ctx.conV ≠ .NoInformation) then
            (ctx.conV, trace2)
          else
            if ctx.cfg.runZX then
              if ctx.zxHandles then
                let trace3 := trace2 ++ [(ProcessType.ZX, ctx.zxV)]
                if ctx.zxV = .Equivalent ∨
                    ctx.zxV = .EquivalentUpToGlobalPhase then
                  (ctx.zxV, trace3)
                else if ctx.zxV = .ProbablyNotEquivalent then
                  if localEq = .ProbablyEquivalent then
                    (.NoInformation, trace3)
                  else (.ProbablyNotEquivalent, trace3)
                else if ctx.zxV = .NoInformation ∧
                    ctx.cfg.onlyZXCheckerConfigured then
                  (.NoInformation, trace3)
                else (localEq, trace3)
              else if ctx.cfg.onlyZXCheckerConfigured then
                (.NoInformation, trace2)
              else (localEq, trace2)
            else (localEq, trace2)
  ⟨vt.1, n, n, vt.2⟩

/-! ### Timeout wrapper
(`EquivalenceCheckingManager::executeWithOptionalTimeout`, lines 430-454) -/

/-- `executeWithOptionalTimeout`: with a non-positive timeout the task runs
directly; otherwise it runs in one `ProcessManager` worker, and a failed
spawn, a `waitForAny` timeout (modelled as `waitResult = none`, after which
the worker is terminated) or a non-completed worker all yield
`NoInformation` instead of raising. -/
def executeWithOptionalTimeout (timeoutPositive spawnOk : Bool)
    (waitResult : Option Outcome) (taskVerdict : EquivalenceCriterion) :
    EquivalenceCriterion :=
  if !timeoutPositive then taskVerdict
  else if !spawnOk then .NoInformation
  else
    match waitResult with
    | none => .NoInformation
    | some r => if r.completed then r.verdict else .NoInformation

/-! ### Concrete example runs used as counterexamples and witnesses -/

/-- Example configuration: simulation and ZX checkers, two threads, one
simulation trial. -/
def exCfgSimZX : Config := ⟨false, false, true, true, 2, 1⟩

/-- Example `checkParallel` context for `exCfgSimZX` on a circuit pair with a
non-garbage ancilla (so `canHandle` is `false`) that is nonetheless
ZX-transformable; the ZX reduction succeeds with zero global phase
(`zxRun true ⟨false, _, true, true, false⟩ = Equivalent`) and the simulation
trial reports `ProbablyEquivalent`. -/
def exParCtxSimZX : ParCtx :=
  ⟨exCfgSimZX, true, Outcome.ok .NoInformation, Outcome.ok .NoInformation,
    Outcome.ok .Equivalent, fun _ => Outcome.ok .ProbablyEquivalent⟩

/-- The matching `runSequentialChecks` context: same configuration and
engine verdicts, with `ZXEquivalenceChecker::canHandle` returning `false`
because of the non-garbage ancilla. -/
def exSeqCtxSimZX : SeqCtx :=
  ⟨exCfgSimZX, false, .NoInformation, .NoInformation, .Equivalent,
    fun _ => .ProbablyEquivalent⟩

/-- Example configuration: simulation checker only, one thread, two trials. -/
def exCfgSimOnly : Config := ⟨false, false, true, false, 1, 2⟩

/-- Example `checkParallel` context for `exCfgSimOnly`: both simulation
trials report `ProbablyEquivalent`. -/
def exParCtxSimOnly : ParCtx :=
  ⟨exCfgSimOnly, false, Outcome.ok .NoInformation, Outcome.ok .NoInformation,
    Outcome.ok .NoInformation, fun _ => Outcome.ok .ProbablyEquivalent⟩

/-- Deterministic engine scenario: only the simulation checker is enabled,
trial `i` completes normally with verdict `simV i`. -/
def mkSimOnlyParCtx (nthreads ms : Nat)
    (simV : Nat → EquivalenceCriterion) : ParCtx :=
  ⟨⟨false, false, true, false, nthreads, ms⟩, false,
    Outcome.ok .NoInformation, Outcome.ok .NoInformation,
    Outcome.ok .NoInformation, fun i => Outcome.ok (simV i)⟩

/-- The matching sequential context for the simulation-only scenario. -/
def mkSimOnlySeqCtx (nthreads ms : Nat)
    (simV : Nat → EquivalenceCriterion) : SeqCtx :=
  ⟨⟨false, false, true, false, nthreads, ms⟩, false, .NoInformation,
    .NoInformation, .NoInformation, simV⟩

/-- Deterministic engine scenario: only the alternating checker is enabled
and completes normally with verdict `a`. -/
def mkAltOnlyParCtx (nthreads : Nat) (a : EquivalenceCriterion) : ParCtx :=
  ⟨⟨true, false, false, false, nthreads, 0⟩, false, Outcome.ok a,
    Outcome.ok .NoInformation, Outcome.ok .NoInformation,
    fun _ => Outcome.ok .NoInformation⟩

/-- The matching sequential context for the alternating-only scenario. -/
def mkAltOnlySeqCtx (nthreads : Nat) (a : EquivalenceCriterion) : SeqCtx :=
  ⟨⟨true, false, false, false, nthreads, 0⟩, false, a, .NoInformation,
    .NoInformation, fun _ => .NoInformation⟩

/-- Deterministic engine scenario: only the construction checker is enabled
and completes normally with verdict `a`. -/
def mkConOnlyParCtx (nthreads : Nat) (a : EquivalenceCriterion) : ParCtx :=
  ⟨⟨false, true, false, false, nthreads, 0⟩, false,
    Outcome.ok .NoInformation, Outcome.ok a, Outcome.ok .NoInformation,
    fun _ => Outcome.ok .NoInformation⟩

/-- The matching sequential context for the construction-only scenario. -/
def mkConOnlySeqCtx (nthreads : Nat) (a : EquivalenceCriterion) : SeqCtx :=
  ⟨⟨false, true, false, false, nthreads, 0⟩, false, .NoInformation, a,
    .NoInformation, fun _ => .NoInformation⟩

/-- Deterministic engine scenario: only the ZX checker is enabled; both the
parallel transformability test and the sequential `canHandle` test evaluate
to `transf` (the circuits have no non-garbage ancillae), and the checker
completes normally with verdict `z`. -/
def mkZXOnlyParCtx (nthreads : Nat) (transf : Bool)
    (z : EquivalenceCriterion) : ParCtx :=
  ⟨⟨false, false, false, true, nthreads, 0⟩, transf,
    Outcome.ok .NoInformation, Outcome.ok .NoInformation, Outcome.ok z,
    fun _ => Outcome.ok .NoInformation⟩

/-- The matching sequential context for the ZX-only scenario. -/
def mkZXOnlySeqCtx (nthreads : Nat) (transf : Bool)
    (z : EquivalenceCriterion) : SeqCtx :=
  ⟨⟨false, false, false, true, nthreads, 0⟩, transf, .NoInformation,
    .NoInformation, z, fun _ => .NoInformation⟩

/-- Expected final verdict of a simulation-only run with deterministic
trial verdicts: `NotEquivalent` as soon as some trial refutes equivalence,
`NoInformation` with no trials, `ProbablyEquivalent` otherwise. -/
def simOnlySpec (ms : Nat) (simV : Nat → EquivalenceCriterion) :
    EquivalenceCriterion :=
  if ∃ i, i < ms ∧ simV i = .NotEquivalent then .NotEquivalent
  else if ms = 0 then .NoInformation else .ProbablyEquivalent

/-- Loop invariant of a simulation-only parallel run: the running processes
are the spawned-but-unfinished trials, slots are filled up to
`min(effectiveProcesses, maxSims - performed)`, no completed trial was
`NotEquivalent`, and the accumulated verdict reflects whether any trial has
finished. -/
def SimOnlyInv (eff ms : Nat) (simV : Nat → EquivalenceCriterion)
    (st : ParState) : Prop :=
  ∃ idxs : List Nat,
    st.running = idxs.map
      (fun i => (ProcessType.Simulation, Outcome.ok (simV i))) ∧
    (∀ i, i ∈ idxs → i < st.started) ∧
    st.started = st.performed + idxs.length ∧
    idxs.length = min eff (ms - st.performed) ∧
    st.started ≤ ms ∧
    (∀ j, j < st.started → j ∉ idxs → simV j ≠ .NotEquivalent) ∧
    st.results =
      (if st.performed = 0 then EquivalenceCriterion.NoInformation
       else EquivalenceCriterion.ProbablyEquivalent) ∧
    st.done = false ∧ st.timedOut = false

/-- Count of running simulation processes in a parallel state. -/
def ParState.runningSims (st : ParState) : Nat :=
  st.running.countP (fun p => decide (p.1 = ProcessType.Simulation))

/-- Counter invariant of the parallel runner (spec §8.3): completed plus
running simulations never exceed the spawn counter (strict accounting can
only be lost to crashed workers, in the safe direction), and the spawn
counter never exceeds `maxSims`. -/
def CounterInv (ms : Nat) (st : ParState) : Prop :=
  st.performed + st.runningSims ≤ st.started ∧ st.started ≤ ms

/-- Example `runSequentialChecks` context for `exCfgSimOnly`: every
simulation trial reports `NotEquivalent`. -/
def exSeqCtxNE : SeqCtx :=
  ⟨exCfgSimOnly, false, .NoInformation, .NoInformation, .NoInformation,
    fun _ => .NotEquivalent⟩

/-- Example `runSequentialChecks` context: construction and ZX checkers,
the construction checker yields `NoInformation` and the eligible ZX checker
concludes `Equivalent`. -/
def exSeqCtxConZX : SeqCtx :=
  ⟨⟨false, true, false, true, 2, 0⟩, true, .NoInformation, .NoInformation,
    .Equivalent, fun _ => .NoInformation⟩

/-! ## Helper lemmas -/

/-- Once the `done` flag is set, the `checkParallel` loop performs no further
fusion: the state is returned as is. -/
theorem parRun_done (ctx : ParCtx) (sched : List Nat) (st : ParState)
    (h : st.done = true) : parRun ctx sched st = .ok st := by
  cases sched <;> simp [parRun, h]

/-- With no running processes the `checkParallel` loop exits immediately. -/
theorem parRun_empty (ctx : ParCtx) (sched : List Nat) (st : ParState)
    (h : st.running = []) : parRun ctx sched st = .ok st := by
  cases sched <;> simp [parRun, h]

/-- An element of a list is either the element at the erased index or an
element of the erased list. -/
theorem mem_eraseIdx_or {α : Type} :
    ∀ (l : List α) (n : Nat) (d x : α), x ∈ l → n < l.length →
      x = l.getD n d ∨ x ∈ l.eraseIdx n := by
  intro l
  induction l with
  | nil => intro n d x hx; simp at hx
  | cons a t ih =>
      intro n d x hx hn
      cases n with
      | zero =>
          rcases List.mem_cons.mp hx with h | h
          · exact Or.inl (by simp [h])
          · exact Or.inr (by simpa [List.eraseIdx] using h)
      | succ n =>
          rcases List.mem_cons.mp hx with h | h
          · exact Or.inr (by simp [List.eraseIdx, h])
          · rcases ih n d x h (by simpa using hn) with h2 | h2
            · exact Or.inl (by simpa using h2)
            · exact Or.inr (by simp [List.eraseIdx, h2])

/-- Erasing an index removes exactly that element from the count. -/
theorem countP_eraseIdx {α : Type} (p : α → Bool) :
    ∀ (l : List α) (n : Nat) (d : α), n < l.length →
      l.countP p =
        (l.eraseIdx n).countP p + (if p (l.getD n d) then 1 else 0) := by
  intro l
  induction l with
  | nil => intro n d hn; simp at hn
  | cons a t ih =>
      intro n d hn
      cases n with
      | zero => simp [List.eraseIdx, List.countP_cons]
      | succ n =>
          have := ih n d (by simpa using hn)
          simp [List.eraseIdx, List.countP_cons, this]
          omega

/-- Erasing an index can only lower the count. -/
theorem countP_eraseIdx_le {α : Type} (p : α → Bool) :
    ∀ (l : List α) (n : Nat), (l.eraseIdx n).countP p ≤ l.countP p := by
  intro l
  induction l with
  | nil => intro n; simp
  | cons a t ih =>
      intro n
      cases n with
      | zero =>
          simp only [List.eraseIdx, List.countP_cons]
          omega
      | succ n =>
          simp only [List.eraseIdx, List.countP_cons]
          have := ih n
          omega

/-- `eraseIdx` commutes with `map`. -/
theorem eraseIdx_map_comm {α β : Type} (f : α → β) :
    ∀ (l : List α) (n : Nat), (l.map f).eraseIdx n = (l.eraseIdx n).map f := by
  intro l
  induction l with
  | nil => intro n; simp
  | cons a t ih => intro n; cases n <;> simp [List.eraseIdx, ih]

/-- `getD` commutes with `map` at indices inside the list. -/
theorem getD_map_comm {α β : Type} (f : α → β) :
    ∀ (l : List α) (n : Nat) (d : α), n < l.length →
      (l.map f).getD n (f d) = f (l.getD n d) := by
  intro l
  induction l with
  | nil => intro n d hn; simp at hn
  | cons a t ih =>
      intro n d hn
      cases n with
      | zero => simp
      | succ n =>
          have hn2 : n < t.length := by simpa using hn
          simp [ih n d hn2]

/-- A simulation loop without early return ran all trials, and every trial
verdict was neither `NoInformation` nor `NotEquivalent`. -/
theorem seqSimLoop_none (simV : Nat → EquivalenceCriterion) :
    ∀ (k idx : Nat), (seqSimLoop simV k idx).1 = none →
      (seqSimLoop simV k idx).2 = k ∧
        ∀ j, j < k → simV (idx + j) ≠ .NoInformation ∧
          simV (idx + j) ≠ .NotEquivalent := by
  intro k
  induction k with
  | zero =>
      intro idx _
      exact ⟨rfl, fun j hj => absurd hj (by omega)⟩
  | succ k ih =>
      intro idx h
      cases hv : simV idx
      case NoInformation => rw [seqSimLoop, hv] at h; simp at h
      case NotEquivalent => rw [seqSimLoop, hv] at h; simp at h
      all_goals
        rw [seqSimLoop, hv] at h
        obtain ⟨hn, hg⟩ := ih (idx + 1) h
        refine ⟨by rw [seqSimLoop, hv]; simp [hn], ?_⟩
        intro j hj
        cases j with
        | zero => simp [hv]
        | succ j =>
            simpa [show idx + (j + 1) = idx + 1 + j by omega]
              using hg j (by omega)

/-- Characterization of a simulation loop that returned early: the verdict
is `NoInformation` or `NotEquivalent`, it was produced by the last executed
trial, and all earlier trials produced neither. -/
theorem seqSimLoop_some (simV : Nat → EquivalenceCriterion) :
    ∀ (k idx : Nat) (v : EquivalenceCriterion),
      (seqSimLoop simV k idx).1 = some v →
      ∃ m, m < k ∧ (seqSimLoop simV k idx).2 = m + 1 ∧ simV (idx + m) = v ∧
        (v = .NoInformation ∨ v = .NotEquivalent) ∧
        ∀ j, j < m → simV (idx + j) ≠ .NoInformation ∧
          simV (idx + j) ≠ .NotEquivalent := by
  intro k
  induction k with
  | zero => intro idx v h; rw [seqSimLoop] at h; simp at h
  | succ k ih =>
      intro idx v h
      cases hv : simV idx
      case NoInformation =>
        rw [seqSimLoop, hv] at h
        simp at h
        refine ⟨0, by omega, by rw [seqSimLoop, hv], by simpa using hv.trans h,
          by simp [← h], fun j hj => absurd hj (by omega)⟩
      case NotEquivalent =>
        rw [seqSimLoop, hv] at h
        simp at h
        refine ⟨0, by omega, by rw [seqSimLoop, hv], by simpa using hv.trans h,
          by simp [← h], fun j hj => absurd hj (by omega)⟩
      all_goals
        rw [seqSimLoop, hv] at h
        obtain ⟨m, hm, hn, hval, hcls, hg⟩ := ih (idx + 1) v h
        refine ⟨m + 1, by omega, by rw [seqSimLoop, hv]; simp [hn],
          by simpa [show idx + (m + 1) = idx + 1 + m by omega] using hval,
          hcls, ?_⟩
        intro j hj
        cases j with
        | zero => simp [hv]
        | succ j =>
            simpa [show idx + (j + 1) = idx + 1 + j by omega]
              using hg j (by omega)

/-- A simulation loop all of whose trials produce neither `NoInformation`
nor `NotEquivalent` runs to completion. -/
theorem seqSimLoop_all_good (simV : Nat → EquivalenceCriterion) :
    ∀ (k idx : Nat),
      (∀ j, j < k → simV (idx + j) ≠ .NoInformation ∧
        simV (idx + j) ≠ .NotEquivalent) →
      seqSimLoop simV k idx = (none, k) := by
  intro k
  induction k with
  | zero => intro idx _; rw [seqSimLoop]
  | succ k ih =>
      intro idx hg
      have h0 := hg 0 (by omega)
      simp at h0
      have hrest : ∀ j, j < k → simV (idx + 1 + j) ≠ .NoInformation ∧
          simV (idx + 1 + j) ≠ .NotEquivalent := by
        intro j hj
        simpa [show idx + 1 + j = idx + (j + 1) by omega]
          using hg (j + 1) (by omega)
      have hk := ih (idx + 1) hrest
      cases hv : simV idx
      case NoInformation => exact absurd hv h0.1
      case NotEquivalent => exact absurd hv h0.2
      all_goals rw [seqSimLoop, hv]; simp [hk]

/-- Membership in a conditionally present singleton. -/
theorem mem_ite_singleton {α : Type} (x y : α) (c : Prop) [Decidable c] :
    (x ∈ if c then [y] else []) ↔ c ∧ x = y := by
  split_ifs with h <;> simp [h]

/-- The simulation loop executes at most the requested number of trials. -/
theorem seqSimLoop_le (simV : Nat → EquivalenceCriterion) :
    ∀ (k idx : Nat), (seqSimLoop simV k idx).2 ≤ k := by
  intro k
  induction k with
  | zero => intro idx; rw [seqSimLoop]
  | succ k ih =>
      intro idx
      cases hv : simV idx
      case NoInformation => rw [seqSimLoop, hv]; dsimp only; omega
      case NotEquivalent => rw [seqSimLoop, hv]; dsimp only; omega
      all_goals
        rw [seqSimLoop, hv]
        dsimp only
        have := ih (idx + 1)
        omega

set_option maxHeartbeats 800000 in
/-- Counter bookkeeping of `handleCompleted`: counters are monotone,
advance by at most one, the spawn counter only advances below `maxSims`,
and the counting invariant is preserved (with strict slack required for a
genuine simulation completion, which corresponds to the removed worker). -/
theorem handleCompleted_counters (ctx : ParCtx) (s : ParState)
    (t : ProcessType) (v : EquivalenceCriterion)
    (h1 : s.performed + s.runningSims ≤ s.started)
    (h2 : t = .Simulation → v ≠ .NoInformation →
      s.performed + s.runningSims < s.started)
    (h3 : s.started ≤ ctx.cfg.maxSims) :
    CounterInv ctx.cfg.maxSims (handleCompleted ctx s t v) ∧
      s.performed ≤ (handleCompleted ctx s t v).performed ∧
      (handleCompleted ctx s t v).performed ≤ s.performed + 1 ∧
      s.started ≤ (handleCompleted ctx s t v).started ∧
      (handleCompleted ctx s t v).started ≤ s.started + 1 := by
  cases t
  case Simulation =>
      by_cases hv0 : v = EquivalenceCriterion.NoInformation
      · subst hv0
        simp [handleCompleted]
        simp only [ParState.runningSims] at h1
        simp [CounterInv, ParState.runningSims]
        omega
      · have hstrict := h2 rfl hv0
        simp [handleCompleted, hv0]
        simp only [ParState.runningSims] at h1 hstrict
        split_ifs <;> simp_all [CounterInv, ParState.runningSims] <;> omega
  all_goals
    simp [handleCompleted]
    simp only [ParState.runningSims] at h1
    split_ifs <;> simp_all [CounterInv, ParState.runningSims]

/-- No simulation is counted in a conditionally present non-simulation
singleton. -/
theorem countP_sim_ite_non (c : Prop) [Decidable c] (t : ProcessType)
    (o : Outcome) (h : t ≠ .Simulation) :
    List.countP (fun p => decide (p.1 = ProcessType.Simulation))
      (if c then [(t, o)] else []) = 0 := by
  split_ifs <;> simp [List.countP_cons, h]

/-- Every process in the initial simulation batch counts as a simulation. -/
theorem countP_sim_range (f : Nat → Outcome) (n : Nat) :
    List.countP (fun p => decide (p.1 = ProcessType.Simulation))
      ((List.range n).map (fun i => (ProcessType.Simulation, f i))) = n := by
  rw [List.countP_map]
  have hfun : ((fun p => decide (p.1 = ProcessType.Simulation)) ∘
      fun i => (ProcessType.Simulation, f i)) = fun _ => true := by
    funext i
    simp
  rw [hfun, List.countP_true, List.length_range]

/-- A simulation loop whose first `i` trials are good and whose `i`-th trial
yields `NoInformation` or `NotEquivalent` returns that verdict after `i + 1`
trials. -/
theorem seqSimLoop_early (simV : Nat → EquivalenceCriterion) :
    ∀ (i k idx : Nat), i < k →
      (∀ j, j < i → simV (idx + j) ≠ .NoInformation ∧
        simV (idx + j) ≠ .NotEquivalent) →
      (simV (idx + i) = .NoInformation ∨ simV (idx + i) = .NotEquivalent) →
      seqSimLoop simV k idx = (some (simV (idx + i)), i + 1) := by
  intro i
  induction i with
  | zero =>
      intro k idx hik hg hbad
      obtain ⟨k, rfl⟩ : ∃ m, k = m + 1 := ⟨k - 1, by omega⟩
      simp only [Nat.add_zero] at hbad ⊢
      rcases hbad with hb | hb <;> rw [seqSimLoop, hb]
  | succ i ih =>
      intro k idx hik hg hbad
      obtain ⟨k, rfl⟩ : ∃ m, k = m + 1 := ⟨k - 1, by omega⟩
      have h0 := hg 0 (by omega)
      simp only [Nat.add_zero] at h0
      have hrec := ih k (idx + 1) (by omega)
        (fun j hj => by
          simpa [show idx + 1 + j = idx + (j + 1) by omega]
            using hg (j + 1) (by omega))
        (by simpa [show idx + 1 + i = idx + (i + 1) by omega] using hbad)
      cases hv : simV idx
      case NoInformation => exact absurd hv h0.1
      case NotEquivalent => exact absurd hv h0.2
      all_goals
        rw [seqSimLoop, hv, hrec]
        simp [show idx + 1 + i = idx + (i + 1) by omega]

/-- The sequential runner on a simulation-only configuration computes the
expected verdict, provided no trial is uninformative. -/
theorem simOnly_seq (nthreads ms : Nat)
    (simV : Nat → EquivalenceCriterion)
    (hgood : ∀ i, i < ms → simV i ≠ .NoInformation) :
    (runSequentialChecks (mkSimOnlySeqCtx nthreads ms simV)).verdict =
      simOnlySpec ms simV := by
  by_cases hex : ∃ i, i < ms ∧ simV i = .NotEquivalent
  · have hspec := Nat.find_spec hex
    have hloop := seqSimLoop_early simV (Nat.find hex) ms 0 hspec.1
      (fun j hj => by
        have hjm : j < ms := by
          have := hspec.1
          omega
        have hmin := Nat.find_min hex hj
        simp only [Nat.zero_add]
        exact ⟨hgood j hjm, fun hne => hmin ⟨hjm, hne⟩⟩)
      (by simp only [Nat.zero_add]; exact Or.inr hspec.2)
    simp only [Nat.zero_add] at hloop
    rw [hspec.2] at hloop
    simp [runSequentialChecks, mkSimOnlySeqCtx, hloop, simOnlySpec, hex]
  · have hloop := seqSimLoop_all_good simV ms 0
      (fun j hj => by
        simp only [Nat.zero_add]
        exact ⟨hgood j hj, fun hne => hex ⟨j, hj, hne⟩⟩)
    by_cases hms : ms = 0
    · subst hms
      simp [runSequentialChecks, mkSimOnlySeqCtx, simOnlySpec, hex,
        seqSimLoop]
    · simp [runSequentialChecks, mkSimOnlySeqCtx, hloop, simOnlySpec, hex,
        hms, Config.onlySimulationCheckerConfigured]

/-- Projection of a normal completion: no exception class. -/
theorem Outcome.ok_exc (v : EquivalenceCriterion) :
    (Outcome.ok v).exc = ExceptionType.None := rfl

/-- Projection of a normal completion: the worker delivered data. -/
theorem Outcome.ok_completed (v : EquivalenceCriterion) :
    (Outcome.ok v).completed = true := rfl

/-- Projection of a normal completion: the verdict written by the child. -/
theorem Outcome.ok_verdict (v : EquivalenceCriterion) :
    (Outcome.ok v).verdict = v := rfl

/-- `getD` after `map`, with an arbitrary default, at an index inside the
list. -/
theorem getD_map_indep {α β : Type} (f : α → β) :
    ∀ (l : List α) (n : Nat) (d : α) (e : β), n < l.length →
      (l.map f).getD n e = f (l.getD n d) := by
  intro l
  induction l with
  | nil => intro n d e hn; simp at hn
  | cons a t ih =>
      intro n d e hn
      cases n with
      | zero => simp
      | succ n =>
          rw [List.map_cons, List.getD_cons_succ, List.getD_cons_succ]
          exact ih n d e (by simpa using hn)

/-- `getD` at an index inside the list is an element of the list. -/
theorem getD_mem {α : Type} :
    ∀ (l : List α) (n : Nat) (d : α), n < l.length → l.getD n d ∈ l := by
  intro l
  induction l with
  | nil => intro n d hn; simp at hn
  | cons a t ih =>
      intro n d hn
      cases n with
      | zero => simp
      | succ n => exact List.mem_cons_of_mem _ (ih n d (by simpa using hn))

/-- Erasing an index keeps a sublist: membership is preserved upward. -/
theorem mem_of_mem_eraseIdx {α : Type} :
    ∀ (l : List α) (n : Nat) (x : α), x ∈ l.eraseIdx n → x ∈ l := by
  intro l
  induction l with
  | nil => intro n x hx; simp [List.eraseIdx] at hx
  | cons a t ih =>
      intro n x hx
      cases n with
      | zero => exact List.mem_cons_of_mem _ (by simpa [List.eraseIdx] using hx)
      | succ n =>
          rcases List.mem_cons.mp (by simpa [List.eraseIdx] using hx) with h | h
          · simp [h]
          · exact List.mem_cons_of_mem _ (ih n x h)

/-- Erasing an index inside the list shortens it by exactly one. -/
theorem length_eraseIdx_lt {α : Type} :
    ∀ (l : List α) (n : Nat), n < l.length →
      (l.eraseIdx n).length = l.length - 1 := by
  intro l
  induction l with
  | nil => intro n hn; simp at hn
  | cons a t ih =>
      intro n hn
      cases n with
      | zero => simp [List.eraseIdx]
      | succ n =>
          have h2 : n < t.length := by simpa using hn
          have := ih n h2
          simp [List.eraseIdx, this]
          omega

/-- The initial spawn phase of a simulation-only `checkParallel` run
establishes the loop invariant: `min(effectiveProcesses, maxSims)` trials
are started (the `std::size_t` subtraction does not wrap because
`maxSims < 2^64`). -/
theorem simOnly_parInit (nthreads ms : Nat)
    (simV : Nat → EquivalenceCriterion) (hms : ms < 2 ^ 64) :
    SimOnlyInv (min nthreads ms) ms simV
      (parInit (mkSimOnlyParCtx nthreads ms simV)) := by
  have h64 : (2 : Nat) ^ 64 = 18446744073709551616 := by norm_num
  have hsz : min (szSub (min nthreads ms) 0) ms = min nthreads ms := by
    unfold szSub
    rw [h64] at hms ⊢
    omega
  have hinit : parInit (mkSimOnlyParCtx nthreads ms simV) =
      { results := .NoInformation
        started := min nthreads ms
        performed := 0
        running := (List.range (min nthreads ms)).map
          (fun i => (ProcessType.Simulation, Outcome.ok (simV i)))
        done := false
        timedOut := false } := by
    simp [parInit, mkSimOnlyParCtx, ParCtx.effectiveProcesses,
      ParCtx.tasksToExecute, ParCtx.runZXPar, hsz]
  rw [hinit]
  refine ⟨List.range (min nthreads ms), rfl, ?_, ?_, ?_, ?_, ?_, rfl, rfl,
    rfl⟩
  · intro i hi
    simpa using hi
  · simp
  · simp
  · simp
  · intro j hj hjn
    exact absurd (List.mem_range.mpr hj) hjn


/-- When a simulation-only run holds the invariant and no process is left,
the accumulated verdict is the expected one: all trials are done, none was
`NotEquivalent`. -/
theorem simOnly_inv_final (nthreads ms : Nat)
    (simV : Nat → EquivalenceCriterion) (hnt : 1 ≤ nthreads)
    (st : ParState) (hinv : SimOnlyInv (min nthreads ms) ms simV st)
    (hempty : st.running = []) : st.results = simOnlySpec ms simV := by
  obtain ⟨idxs, hrl, hmem, hsum, hlen, hsb, hgc, hres, hdone, htO⟩ := hinv
  have hidxs : idxs = [] := by
    cases idxs with
    | nil => rfl
    | cons a l =>
        rw [hempty] at hrl
        exact absurd hrl.symm (by simp)
  subst hidxs
  simp only [List.length_nil] at hlen hsum
  by_cases hms : ms = 0
  · subst hms
    have hp0 : st.performed = 0 := by omega
    rw [hres, if_pos hp0]
    simp [simOnlySpec]
  · have hpm : st.performed = ms := by omega
    have hnex : ¬ ∃ i, i < ms ∧ simV i = .NotEquivalent := by
      rintro ⟨i, hi, hNEi⟩
      exact hgc i (by omega) (List.not_mem_nil i) hNEi
    rw [hres, if_neg (by omega)]
    simp [simOnlySpec, hnex, hms]

set_option maxHeartbeats 1000000 in
/-- The wait loop of a simulation-only `checkParallel` run, started from any
state satisfying the invariant and not ending in a `waitForAny` timeout,
yields the expected verdict, for every completion schedule. -/
theorem simOnly_parRun (nthreads ms : Nat)
    (simV : Nat → EquivalenceCriterion) (hnt : 1 ≤ nthreads)
    (hgood : ∀ i, i < ms → simV i ≠ .NoInformation) :
    ∀ (sched : List Nat) (st stF : ParState),
      SimOnlyInv (min nthreads ms) ms simV st →
      parRun (mkSimOnlyParCtx nthreads ms simV) sched st = .ok stF →
      stF.timedOut = false →
      stF.results = simOnlySpec ms simV := by
  intro sched
  induction sched with
  | nil =>
      intro st stF hinv hrun htf
      by_cases hempty : st.running = []
      · rw [parRun_empty _ _ _ hempty] at hrun
        injection hrun with h2
        subst h2
        exact simOnly_inv_final nthreads ms simV hnt st hinv hempty
      · obtain ⟨idxs, hrl, hmem, hsum, hlen, hsb, hgc, hres, hdone, htO⟩ :=
          hinv
        simp only [parRun] at hrun
        rw [if_neg (by simp [List.isEmpty_iff, hempty, hdone])] at hrun
        injection hrun with h2
        rw [← h2] at htf
        simp at htf
  | cons c rest ih =>
      intro st stF hinv hrun htf
      by_cases hempty : st.running = []
      · rw [parRun_empty _ _ _ hempty] at hrun
        injection hrun with h2
        subst h2
        exact simOnly_inv_final nthreads ms simV hnt st hinv hempty
      · obtain ⟨idxs, hrl, hmem, hsum, hlen, hsb, hgc, hres, hdone, htO⟩ :=
          hinv
        have hlength : st.running.length = idxs.length := by
          rw [hrl, List.length_map]
        have hlpos : 0 < st.running.length := List.length_pos.mpr hempty
        have hidxlt : c % st.running.length < idxs.length := by
          rw [← hlength]
          exact Nat.mod_lt _ hlpos
        set i0 := idxs.getD (c % st.running.length) 0 with hi0
        have hproc : st.running.getD (c % st.running.length)
            (ProcessType.Simulation,
              Outcome.ok EquivalenceCriterion.NoInformation)
            = (ProcessType.Simulation, Outcome.ok (simV i0)) := by
          have h := getD_map_indep
            (fun i => (ProcessType.Simulation, Outcome.ok (simV i)))
            idxs (c % st.running.length) 0
            (ProcessType.Simulation,
              Outcome.ok EquivalenceCriterion.NoInformation) hidxlt
          rw [← hrl] at h
          rw [h, ← hi0]
        have hi0mem : i0 ∈ idxs := by
          rw [hi0]
          exact getD_mem idxs _ 0 hidxlt
        have hi0lt : i0 < st.started := hmem i0 hi0mem
        have hi0ms : i0 < ms := lt_of_lt_of_le hi0lt hsb
        have hstep : parStep (mkSimOnlyParCtx nthreads ms simV) st c
            = .ok (handleCompleted (mkSimOnlyParCtx nthreads ms simV)
                { st with running :=
                    st.running.eraseIdx (c % st.running.length) }
                .Simulation (simV i0)) := by
          simp only [parStep]
          rw [hproc]
          simp [Outcome.ok_exc, Outcome.ok_completed, Outcome.ok_verdict]
        simp only [parRun] at hrun
        rw [if_neg (by simp [List.isEmpty_iff, hempty, hdone])] at hrun
        simp only [hstep] at hrun
        set stE : ParState :=
          { st with running := st.running.eraseIdx (c % st.running.length) }
          with hstE
        have hstEr : stE.running
            = (idxs.eraseIdx (c % st.running.length)).map
              (fun i => (ProcessType.Simulation, Outcome.ok (simV i))) := by
          rw [hstE]
          show st.running.eraseIdx _ = _
          rw [hrl, eraseIdx_map_comm]
        have herlen : (idxs.eraseIdx (c % st.running.length)).length
            = idxs.length - 1 := length_eraseIdx_lt idxs _ hidxlt
        by_cases hNE : simV i0 = .NotEquivalent
        · have hhc : handleCompleted (mkSimOnlyParCtx nthreads ms simV) stE
              .Simulation (simV i0)
              = { stE with
                  results := .NotEquivalent
                  performed := stE.performed + 1
                  done := true } := by
            rw [hNE]
            simp [handleCompleted]
          rw [hhc] at hrun
          have hd := parRun_done (mkSimOnlyParCtx nthreads ms simV) rest
            { stE with
              results := .NotEquivalent
              performed := stE.performed + 1
              done := true } rfl
          rw [hd] at hrun
          injection hrun with h2
          rw [← h2]
          have hex : ∃ i, i < ms ∧ simV i = .NotEquivalent :=
            ⟨i0, hi0ms, hNE⟩
          simp [simOnlySpec, hex]
        · have hNoInf : simV i0 ≠ .NoInformation := hgood i0 hi0ms
          have hhc : handleCompleted (mkSimOnlyParCtx nthreads ms simV) stE
              .Simulation (simV i0)
              = (if st.performed + 1 = ms then
                  { stE with
                    results := .ProbablyEquivalent
                    performed := st.performed + 1
                    done := true }
                else if st.started < ms ∧
                    stE.running.length < min nthreads ms then
                  { stE with
                    results := .ProbablyEquivalent
                    performed := st.performed + 1
                    running := stE.running ++
                      [(ProcessType.Simulation,
                        Outcome.ok (simV st.started))]
                    started := st.started + 1 }
                else
                  { stE with
                    results := .ProbablyEquivalent
                    performed := st.performed + 1 }) := by
            by_cases hp0 : st.performed = 0 <;>
              simp [handleCompleted, hNoInf, hNE, hstE, hres, hp0,
                mkSimOnlyParCtx, ParCtx.cfgPar, ParCtx.runZXPar,
                ParCtx.effectiveProcesses, ParCtx.tasksToExecute,
                Config.onlySimulationCheckerConfigured]
          have hrl2 : stE.running.length = idxs.length - 1 := by
            rw [hstEr, List.length_map, herlen]
          by_cases hfin : st.performed + 1 = ms
          · rw [if_pos hfin] at hhc
            rw [hhc] at hrun
            have hd := parRun_done (mkSimOnlyParCtx nthreads ms simV) rest
              { stE with
                results := .ProbablyEquivalent
                performed := st.performed + 1
                done := true } rfl
            rw [hd] at hrun
            injection hrun with h2
            rw [← h2]
            have hlen1 : idxs.length = 1 := by omega
            have hnex : ¬ ∃ i, i < ms ∧ simV i = .NotEquivalent := by
              rintro ⟨j, hj, hNEj⟩
              by_cases hjm : j ∈ idxs
              · obtain ⟨a, ha⟩ := List.length_eq_one.mp hlen1
                rw [ha] at hjm hi0mem
                simp only [List.mem_singleton] at hjm hi0mem
                rw [hjm, ← hi0mem] at hNEj
                exact hNE hNEj
              · exact hgc j (by omega) hjm hNEj
            have hms0 : ms ≠ 0 := by omega
            simp [simOnlySpec, hnex, hms0]
          · rw [if_neg hfin] at hhc
            by_cases hrf : st.started < ms ∧
                stE.running.length < min nthreads ms
            · rw [if_pos hrf] at hhc
              rw [hhc] at hrun
              rw [hrl2] at hrf
              refine ih _ stF
                ⟨idxs.eraseIdx (c % st.running.length) ++ [st.started],
                  ?_, ?_, ?_, ?_, ?_, ?_, ?_, ?_, ?_⟩ hrun htf
              · show stE.running ++
                    [(ProcessType.Simulation, Outcome.ok (simV st.started))]
                    = _
                rw [hstEr]
                simp
              · intro i hi
                show i < st.started + 1
                rcases List.mem_append.mp hi with h | h
                · have := hmem i (mem_of_mem_eraseIdx idxs _ i h)
                  omega
                · simp only [List.mem_singleton] at h
                  omega
              · show st.started + 1 = st.performed + 1 + _
                simp only [List.length_append, List.length_singleton, herlen]
                omega
              · simp only [List.length_append, List.length_singleton, herlen]
                omega
              · show st.started + 1 ≤ ms
                omega
              · intro j hj hjn
                have hj2 : j < st.started + 1 := hj
                have hjn1 : j ∉ idxs.eraseIdx (c % st.running.length) :=
                  fun h => hjn (List.mem_append.mpr (Or.inl h))
                have hjn2 : j ≠ st.started :=
                  fun h => hjn (List.mem_append.mpr (Or.inr (by simp [h])))
                rcases Nat.lt_succ_iff_lt_or_eq.mp hj2 with h | h
                · by_cases hjm : j ∈ idxs
                  · rcases mem_eraseIdx_or idxs (c % st.running.length) 0 j
                      hjm hidxlt with he | he
                    · rw [he, ← hi0]
                      exact hNE
                    · exact absurd he hjn1
                  · exact hgc j h hjm
                · exact absurd h hjn2
              · simp
              · exact hdone
              · exact htO
            · rw [if_neg hrf] at hhc
              rw [hhc] at hrun
              rw [hrl2] at hrf
              refine ih _ stF
                ⟨idxs.eraseIdx (c % st.running.length),
                  ?_, ?_, ?_, ?_, ?_, ?_, ?_, ?_, ?_⟩ hrun htf
              · exact hstEr
              · intro i hi
                exact hmem i (mem_of_mem_eraseIdx idxs _ i hi)
              · show st.started = st.performed + 1 + _
                simp only [herlen]
                omega
              · simp only [herlen]
                omega
              · exact hsb
              · intro j hj hjn
                have hj2 : j < st.started := hj
                by_cases hjm : j ∈ idxs
                · rcases mem_eraseIdx_or idxs (c % st.running.length) 0 j
                    hjm hidxlt with he | he
                  · rw [he, ← hi0]
                    exact hNE
                  · exact absurd he hjn
                · exact hgc j hj2 hjm
              · simp
              · exact hdone
              · exact htO


/-- Fusion of a completed alternating checker: its verdict (including
`NoInformation`) replaces the current one and the run stops. -/
theorem handleCompleted_alt (ctx : ParCtx) (st : ParState)
    (a : EquivalenceCriterion) :
    handleCompleted ctx st .Alternating a
      = { st with results := a, done := true } := by
  cases a <;> simp [handleCompleted]

/-- Fusion of a completed construction checker: its verdict (including
`NoInformation`) replaces the current one and the run stops. -/
theorem handleCompleted_con (ctx : ParCtx) (st : ParState)
    (a : EquivalenceCriterion) :
    handleCompleted ctx st .Construction a
      = { st with results := a, done := true } := by
  cases a <;> simp [handleCompleted]

/-- A `checkParallel` run with only the alternating checker configured ends
with that checker's verdict, under every schedule that does not time out. -/
theorem altOnly_parRun (nthreads : Nat) (a : EquivalenceCriterion)
    (sched : List Nat) (stF : ParState)
    (hrun : parRun (mkAltOnlyParCtx nthreads a) sched
        (parInit (mkAltOnlyParCtx nthreads a)) = .ok stF)
    (htf : stF.timedOut = false) : stF.results = a := by
  have hinit : parInit (mkAltOnlyParCtx nthreads a)
      = { results := .NoInformation
          started := 0
          performed := 0
          running := [(ProcessType.Alternating, Outcome.ok a)]
          done := false
          timedOut := false } := by
    simp [parInit, mkAltOnlyParCtx, ParCtx.runZXPar]
  rw [hinit] at hrun
  cases sched with
  | nil =>
      simp only [parRun] at hrun
      rw [if_neg (by simp)] at hrun
      injection hrun with h2
      rw [← h2] at htf
      simp at htf
  | cons c rest =>
      simp only [parRun] at hrun
      rw [if_neg (by simp)] at hrun
      have hstep : parStep (mkAltOnlyParCtx nthreads a)
          { results := .NoInformation
            started := 0
            performed := 0
            running := [(ProcessType.Alternating, Outcome.ok a)]
            done := false
            timedOut := false } c
          = .ok (handleCompleted (mkAltOnlyParCtx nthreads a)
              { results := .NoInformation
                started := 0
                performed := 0
                running := []
                done := false
                timedOut := false }
              .Alternating a) := by
        simp [parStep, Outcome.ok_exc, Outcome.ok_completed,
          Outcome.ok_verdict, Nat.mod_one, List.eraseIdx]
      simp only [hstep] at hrun
      have hhc : handleCompleted (mkAltOnlyParCtx nthreads a)
          { results := .NoInformation
            started := 0
            performed := 0
            running := []
            done := false
            timedOut := false }
          .Alternating a
          = { results := a
              started := 0
              performed := 0
              running := []
              done := true
              timedOut := false } := handleCompleted_alt _ _ a
      rw [hhc] at hrun
      have hd := parRun_done (mkAltOnlyParCtx nthreads a) rest
        { results := a
          started := 0
          performed := 0
          running := []
          done := true
          timedOut := false } rfl
      rw [hd] at hrun
      injection hrun with h2
      rw [← h2]

/-- A sequential run with only the alternating checker configured returns
that checker's verdict. -/
theorem altOnly_seq (nthreads : Nat) (a : EquivalenceCriterion) :
    (runSequentialChecks (mkAltOnlySeqCtx nthreads a)).verdict = a := by
  by_cases ha : a = .NoInformation <;>
    simp [runSequentialChecks, mkAltOnlySeqCtx, ha,
      Config.onlySimulationCheckerConfigured]

/-- A `checkParallel` run with only the construction checker configured ends
with that checker's verdict, under every schedule that does not time out. -/
theorem conOnly_parRun (nthreads : Nat) (a : EquivalenceCriterion)
    (sched : List Nat) (stF : ParState)
    (hrun : parRun (mkConOnlyParCtx nthreads a) sched
        (parInit (mkConOnlyParCtx nthreads a)) = .ok stF)
    (htf : stF.timedOut = false) : stF.results = a := by
  have hinit : parInit (mkConOnlyParCtx nthreads a)
      = { results := .NoInformation
          started := 0
          performed := 0
          running := [(ProcessType.Construction, Outcome.ok a)]
          done := false
          timedOut := false } := by
    simp [parInit, mkConOnlyParCtx, ParCtx.runZXPar]
  rw [hinit] at hrun
  cases sched with
  | nil =>
      simp only [parRun] at hrun
      rw [if_neg (by simp)] at hrun
      injection hrun with h2
      rw [← h2] at htf
      simp at htf
  | cons c rest =>
      simp only [parRun] at hrun
      rw [if_neg (by simp)] at hrun
      have hstep : parStep (mkConOnlyParCtx nthreads a)
          { results := .NoInformation
            started := 0
            performed := 0
            running := [(ProcessType.Construction, Outcome.ok a)]
            done := false
            timedOut := false } c
          = .ok (handleCompleted (mkConOnlyParCtx nthreads a)
              { results := .NoInformation
                started := 0
                performed := 0
                running := []
                done := false
                timedOut := false }
              .Construction a) := by
        simp [parStep, Outcome.ok_exc, Outcome.ok_completed,
          Outcome.ok_verdict, Nat.mod_one, List.eraseIdx]
      simp only [hstep] at hrun
      have hhc : handleCompleted (mkConOnlyParCtx nthreads a)
          { results := .NoInformation
            started := 0
            performed := 0
            running := []
            done := false
            timedOut := false }
          .Construction a
          = { results := a
              started := 0
              performed := 0
              running := []
              done := true
              timedOut := false } := handleCompleted_con _ _ a
      rw [hhc] at hrun
      have hd := parRun_done (mkConOnlyParCtx nthreads a) rest
        { results := a
          started := 0
          performed := 0
          running := []
          done := true
          timedOut := false } rfl
      rw [hd] at hrun
      injection hrun with h2
      rw [← h2]

/-- A sequential run with only the construction checker configured returns
that checker's verdict. -/
theorem conOnly_seq (nthreads : Nat) (a : EquivalenceCriterion) :
    (runSequentialChecks (mkConOnlySeqCtx nthreads a)).verdict = a := by
  by_cases ha : a = .NoInformation <;>
    simp [runSequentialChecks, mkConOnlySeqCtx, ha,
      Config.onlySimulationCheckerConfigured]

/-- A `checkParallel` run with only the ZX checker configured, whose
eligibility test agrees with the sequential `canHandle` and whose verdict
is not `NotEquivalent` (which `zxRun` never produces), ends with the same
verdict as the sequential run. -/
theorem zxOnly_parRun (nthreads : Nat) (transf : Bool)
    (z : EquivalenceCriterion) (hz : z ≠ .NotEquivalent)
    (sched : List Nat) (stF : ParState)
    (hrun : parRun (mkZXOnlyParCtx nthreads transf z) sched
        (parInit (mkZXOnlyParCtx nthreads transf z)) = .ok stF)
    (htf : stF.timedOut = false) :
    stF.results =
      (runSequentialChecks (mkZXOnlySeqCtx nthreads transf z)).verdict := by
  cases transf with
  | false =>
      have hinit : parInit (mkZXOnlyParCtx nthreads false z)
          = { results := .NoInformation
              started := 0
              performed := 0
              running := []
              done := false
              timedOut := false } := by
        simp [parInit, mkZXOnlyParCtx, ParCtx.runZXPar]
      rw [hinit] at hrun
      have he := parRun_empty (mkZXOnlyParCtx nthreads false z) sched
        { results := .NoInformation
          started := 0
          performed := 0
          running := []
          done := false
          timedOut := false } rfl
      rw [he] at hrun
      injection hrun with h2
      rw [← h2]
      simp [runSequentialChecks, mkZXOnlySeqCtx,
        Config.onlyZXCheckerConfigured,
        Config.onlySimulationCheckerConfigured]
  | true =>
      have hinit : parInit (mkZXOnlyParCtx nthreads true z)
          = { results := .NoInformation
              started := 0
              performed := 0
              running := [(ProcessType.ZX, Outcome.ok z)]
              done := false
              timedOut := false } := by
        simp [parInit, mkZXOnlyParCtx, ParCtx.runZXPar]
  
      rw [hinit] at hrun
      cases sched with
      | nil =>
          simp only [parRun] at hrun
          rw [if_neg (by simp)] at hrun
          injection hrun with h2
          rw [← h2] at htf
          simp at htf
      | cons c rest =>
          simp only [parRun] at hrun
          rw [if_neg (by simp)] at hrun
          have hstep : parStep (mkZXOnlyParCtx nthreads true z)
              { results := .NoInformation
                started := 0
                performed := 0
                running := [(ProcessType.ZX, Outcome.ok z)]
                done := false
                timedOut := false } c
              = .ok (handleCompleted (mkZXOnlyParCtx nthreads true z)
                  { results := .NoInformation
                    started := 0
                    performed := 0
                    running := []
                    done := false
                    timedOut := false }
                  .ZX z) := by
            simp [parStep, Outcome.ok_exc, Outcome.ok_completed,
              Outcome.ok_verdict, Nat.mod_one, List.eraseIdx]
          simp only [hstep] at hrun
          cases z with
          | NotEquivalent => exact absurd rfl hz
          | NoInformation =>
              have hhc : handleCompleted (mkZXOnlyParCtx nthreads true
                    .NoInformation)
                  { results := .NoInformation
                    started := 0
                    performed := 0
                    running := []
                    done := false
                    timedOut := false }
                  .ZX .NoInformation
                  = { results := .NoInformation
                      started := 0
                      performed := 0
                      running := []
                      done := true
                      timedOut := false } := by
                simp [handleCompleted, mkZXOnlyParCtx, ParCtx.cfgPar,
                  ParCtx.runZXPar, Config.onlyZXCheckerConfigured]
              rw [hhc] at hrun
              have hd := parRun_done (mkZXOnlyParCtx nthreads true
                  .NoInformation) rest
                { results := .NoInformation
                  started := 0
                  performed := 0
                  running := []
                  done := true
                  timedOut := false } rfl
              rw [hd] at hrun
              injection hrun with h2
              rw [← h2]
              simp [runSequentialChecks, mkZXOnlySeqCtx,
                Config.onlyZXCheckerConfigured,
                Config.onlySimulationCheckerConfigured]
          | Equivalent =>
              have hhc : handleCompleted (mkZXOnlyParCtx nthreads true
                    .Equivalent)
                  { results := .NoInformation
                    started := 0
                    performed := 0
                    running := []
                    done := false
                    timedOut := false }
                  .ZX .Equivalent
                  = { results := .Equivalent
                      started := 0
                      performed := 0
                      running := []
                      done := true
                      timedOut := false } := by
                simp [handleCompleted]
              rw [hhc] at hrun
              have hd := parRun_done (mkZXOnlyParCtx nthreads true
                  .Equivalent) rest
                { results := .Equivalent
                  started := 0
                  performed := 0
                  running := []
                  done := true
                  timedOut := false } rfl
              rw [hd] at hrun
              injection hrun with h2
              rw [← h2]
              simp [runSequentialChecks, mkZXOnlySeqCtx,
                Config.onlySimulationCheckerConfigured]
          | EquivalentUpToGlobalPhase =>
              have hhc : handleCompleted (mkZXOnlyParCtx nthreads true
                    .EquivalentUpToGlobalPhase)
                  { results := .NoInformation
                    started := 0
                    performed := 0
                    running := []
                    done := false
                    timedOut := false }
                  .ZX .EquivalentUpToGlobalPhase
                  = { results := .EquivalentUpToGlobalPhase
                      started := 0
                      performed := 0
                      running := []
                      done := true
                      timedOut := false } := by
                simp [handleCompleted]
              rw [hhc] at hrun
              have hd := parRun_done (mkZXOnlyParCtx nthreads true
                  .EquivalentUpToGlobalPhase) rest
                { results := .EquivalentUpToGlobalPhase
                  started := 0
                  performed := 0
                  running := []
                  done := true
                  timedOut := false } rfl
              rw [hd] at hrun
              injection hrun with h2
              rw [← h2]
              simp [runSequentialChecks, mkZXOnlySeqCtx,
                Config.onlySimulationCheckerConfigured]
          | EquivalentUpToPhase =>
              have hhc : handleCompleted (mkZXOnlyParCtx nthreads true
                    .EquivalentUpToPhase)
                  { results := .NoInformation
                    started := 0
                    performed := 0
                    running := []
                    done := false
                    timedOut := false }
                  .ZX .EquivalentUpToPhase
                  = { results := .NoInformation
                      started := 0
                      performed := 0
                      running := []
                      done := false
                      timedOut := false } := by
                simp [handleCompleted]
              rw [hhc] at hrun
              have he := parRun_empty (mkZXOnlyParCtx nthreads true
                  .EquivalentUpToPhase) rest
                { results := .NoInformation
                  started := 0
                  performed := 0
                  running := []
                  done := false
                  timedOut := false } rfl
              rw [he] at hrun
              injection hrun with h2
              rw [← h2]
              simp [runSequentialChecks, mkZXOnlySeqCtx,
                Config.onlySimulationCheckerConfigured]
          | ProbablyEquivalent =>
              have hhc : handleCompleted (mkZXOnlyParCtx nthreads true
                    .ProbablyEquivalent)
                  { results := .NoInformation
                    started := 0
                    performed := 0
                    running := []
                    done := false
                    timedOut := false }
                  .ZX .ProbablyEquivalent
                  = { results := .NoInformation
                      started := 0
                      performed := 0
                      running := []
                      done := false
                      timedOut := false } := by
                simp [handleCompleted]
              rw [hhc] at hrun
              have he := parRun_empty (mkZXOnlyParCtx nthreads true
                  .ProbablyEquivalent) rest
                { results := .NoInformation
                  started := 0
                  performed := 0
                  running := []
                  done := false
                  timedOut := false } rfl
              rw [he] at hrun
              injection hrun with h2
              rw [← h2]
              simp [runSequentialChecks, mkZXOnlySeqCtx,
                Config.onlySimulationCheckerConfigured]
          | ProbablyNotEquivalent =>
              have hhc : handleCompleted (mkZXOnlyParCtx nthreads true
                    .ProbablyNotEquivalent)
                  { results := .NoInformation
                    started := 0
                    performed := 0
                    running := []
                    done := false
                    timedOut := false }
                  .ZX .ProbablyNotEquivalent
                  = { results := .ProbablyNotEquivalent
                      started := 0
                      performed := 0
                      running := []
                      done := true
                      timedOut := false } := by
                simp [handleCompleted, mkZXOnlyParCtx, ParCtx.cfgPar,
                  ParCtx.runZXPar, Config.onlyZXCheckerConfigured]
              rw [hhc] at hrun
              have hd := parRun_done (mkZXOnlyParCtx nthreads true
                  .ProbablyNotEquivalent) rest
                { results := .ProbablyNotEquivalent
                  started := 0
                  performed := 0
                  running := []
                  done := true
                  timedOut := false } rfl
              rw [hd] at hrun
              injection hrun with h2
              rw [← h2]
              simp [runSequentialChecks, mkZXOnlySeqCtx,
                Config.onlySimulationCheckerConfigured]

/-! ## Claim theorems -/

set_option maxHeartbeats 1000000 in
/-- C1: in both runners, an engine completing with `NotEquivalent` is
decisive regardless of the current verdict: the parallel fusion sets the
final verdict to `NotEquivalent` and stops (further schedule entries are
not consumed), and a sequential run whose trace contains a `NotEquivalent`
completion returns `NotEquivalent` (the ZX checker never produces
`NotEquivalent`, see `zxRun_ne_notEquivalent`, which discharges the
hypothesis on `zxV`). -/
theorem c1_not_equivalent_short_circuits :
    (∀ (ctx : ParCtx) (st : ParState) (t : ProcessType),
        (handleCompleted ctx st t .NotEquivalent).results = .NotEquivalent ∧
          (handleCompleted ctx st t .NotEquivalent).done = true) ∧
      (∀ (ctx : ParCtx) (sched : List Nat) (st : ParState),
        st.done = true → parRun ctx sched st = .ok st) ∧
      (∀ ctx : SeqCtx, ctx.zxV ≠ .NotEquivalent →
        ∀ t : ProcessType,
          (t, EquivalenceCriterion.NotEquivalent) ∈
            (runSequentialChecks ctx).trace →
          (runSequentialChecks ctx).verdict = .NotEquivalent) := by
  refine ⟨?_, ?_, ?_⟩
  · intro ctx st t
    constructor <;> simp [handleCompleted]
  · exact fun ctx sched st h => parRun_done ctx sched st h
  · intro ctx hzx t hmem
    cases hrs : ctx.cfg.runSimulation with
    | true =>
        cases hsp : (seqSimLoop ctx.simV ctx.cfg.maxSims 0).1 with
        | some v =>
            obtain ⟨m, hm, hn, hval, hcls, hg⟩ :=
              seqSimLoop_some ctx.simV ctx.cfg.maxSims 0 v hsp
            simp [runSequentialChecks, hrs, hsp] at hmem ⊢
            obtain ⟨i, hi, -, hNE⟩ := hmem
            rw [hn] at hi
            simp only [Nat.zero_add] at hval hg
            rcases Nat.lt_succ_iff_lt_or_eq.mp hi with hlt | heq
            · exact absurd hNE (hg i hlt).2
            · rw [heq] at hNE
              rw [← hval]
              exact hNE
        | none =>
            obtain ⟨hn, hg⟩ := seqSimLoop_none ctx.simV ctx.cfg.maxSims 0 hsp
            have hnot : ∀ i, i < (seqSimLoop ctx.simV ctx.cfg.maxSims 0).2 →
                ¬ctx.simV i = EquivalenceCriterion.NotEquivalent := by
              intro i hi
              rw [hn] at hi
              simpa using (hg i hi).2
            simp [runSequentialChecks, hrs, hsp] at hmem ⊢
            by_cases hOS : ctx.cfg.onlySimulationCheckerConfigured = true
            · rw [if_pos hOS] at hmem ⊢
              exfalso
              simp at hmem
              obtain ⟨i, hi, -, hNE⟩ := hmem
              exact hnot i hi hNE
            · rw [if_neg hOS] at hmem ⊢
              by_cases hB : ctx.cfg.runAlternating = true ∧
                  ¬ctx.altV = EquivalenceCriterion.NoInformation
              · rw [if_pos hB] at hmem ⊢
                simp [mem_ite_singleton] at hmem ⊢
                rcases hmem with ⟨i, hi, -, hNE⟩ | ⟨-, -, hNE⟩
                · exact absurd hNE (hnot i hi)
                · exact hNE.symm
              · rw [if_neg hB] at hmem ⊢
                have hAlt2 : ctx.cfg.runAlternating = true →
                    ctx.altV = EquivalenceCriterion.NoInformation := by
                  intro hA2
                  by_contra hne
                  exact hB ⟨hA2, hne⟩
                by_cases hC : ctx.cfg.runConstruction = true ∧
                    ¬ctx.conV = EquivalenceCriterion.NoInformation
                · rw [if_pos hC] at hmem ⊢
                  simp [mem_ite_singleton] at hmem ⊢
                  rcases hmem with ⟨i, hi, -, hNE⟩ | ⟨hA2, -, hNE⟩ |
                    ⟨-, -, hNE⟩
                  · exact absurd hNE (hnot i hi)
                  · exact absurd (hAlt2 hA2) (by rw [← hNE]; simp)
                  · exact hNE.symm
                · rw [if_neg hC] at hmem ⊢
                  have hCon2 : ctx.cfg.runConstruction = true →
                      ctx.conV = EquivalenceCriterion.NoInformation := by
                    intro hC2
                    by_contra hne
                    exact hC ⟨hC2, hne⟩
                  exfalso
                  have hzx2 : ¬(EquivalenceCriterion.NotEquivalent =
                      ctx.zxV) := fun h => hzx h.symm
                  clear hg hsp hn hzx hOS hB hC
                  split_ifs at hmem <;> simp_all [mem_ite_singleton] <;>
                    (obtain ⟨i, hi, -, hNE⟩ := hmem; exact hnot i hi hNE)
    | false =>
        simp [runSequentialChecks, hrs] at hmem ⊢
        by_cases hB : ctx.cfg.runAlternating = true ∧
            ¬ctx.altV = EquivalenceCriterion.NoInformation
        · rw [if_pos hB] at hmem ⊢
          simp [mem_ite_singleton] at hmem ⊢
          rcases hmem with ⟨-, -, hNE⟩
          exact hNE.symm
        · rw [if_neg hB] at hmem ⊢
          have hAlt2 : ctx.cfg.runAlternating = true →
              ctx.altV = EquivalenceCriterion.NoInformation := by
            intro hA2
            by_contra hne
            exact hB ⟨hA2, hne⟩
          by_cases hC : ctx.cfg.runConstruction = true ∧
              ¬ctx.conV = EquivalenceCriterion.NoInformation
          · rw [if_pos hC] at hmem ⊢
            simp [mem_ite_singleton] at hmem ⊢
            rcases hmem with ⟨hA2, -, hNE⟩ | ⟨-, -, hNE⟩
            · exact absurd (hAlt2 hA2) (by rw [← hNE]; simp)
            · exact hNE.symm
          · rw [if_neg hC] at hmem ⊢
            have hCon2 : ctx.cfg.runConstruction = true →
                ctx.conV = EquivalenceCriterion.NoInformation := by
              intro hC2
              by_contra hne
              exact hC ⟨hC2, hne⟩
            exfalso
            have hzx2 : ¬(EquivalenceCriterion.NotEquivalent = ctx.zxV) :=
              fun h => hzx h.symm
            clear hzx hB hC
            split_ifs at hmem <;> simp_all [mem_ite_singleton]

/-- C10: for every circuit pair where at least one circuit has ancilla
qubits, `ZXEquivalenceChecker::run` never returns `NotEquivalent` or
`ProbablyNotEquivalent`; whenever its reduction detects non-equivalence in
the presence of ancillae, it returns `NoInformation` instead. -/
theorem c10_zx_run_with_ancillae (nanc1 nanc2 : Nat) (s : ZXRunState)
    (h : 0 < nanc1 ∨ 0 < nanc2) :
    zxRun (zxAncillaFlag nanc1 nanc2) s ≠ .NotEquivalent ∧
      zxRun (zxAncillaFlag nanc1 nanc2) s ≠ .ProbablyNotEquivalent ∧
      (s.nQubitsZero = false → s.reductionEquivalent = false →
        zxRun (zxAncillaFlag nanc1 nanc2) s = .NoInformation) := by
  have ha : zxAncillaFlag nanc1 nanc2 = true := by
    unfold zxAncillaFlag
    rcases h with h | h <;> simp [Nat.pos_iff_ne_zero.mp h]
  rw [ha]
  obtain ⟨a, b, c, d, e⟩ := s
  unfold zxRun
  cases a <;> cases b <;> cases c <;> cases d <;> cases e <;> simp

/-- Witness for C10 at a concrete pair with one ancilla and a miter whose
reduction fails to reach the identity. -/
theorem c10_witness :
    (0 < 1 ∨ 0 < 0) ∧
      (zxRun (zxAncillaFlag 1 0) ⟨false, true, false, true, false⟩ ≠
          .NotEquivalent ∧
        zxRun (zxAncillaFlag 1 0) ⟨false, true, false, true, false⟩ ≠
          .ProbablyNotEquivalent ∧
        (ZXRunState.nQubitsZero ⟨false, true, false, true, false⟩ = false →
          ZXRunState.reductionEquivalent ⟨false, true, false, true, false⟩ =
            false →
          zxRun (zxAncillaFlag 1 0) ⟨false, true, false, true, false⟩ =
            .NoInformation)) :=
  ⟨Or.inl (by decide),
    c10_zx_run_with_ancillae 1 0 ⟨false, true, false, true, false⟩
      (Or.inl (by decide))⟩

/-- C8: with the simulation checker configured, computational-basis states
and at most 63 non-ancillary qubits, the constructor clamps `maxSims` to
`min(maxSims, 2 ^ nq)`. -/
theorem c8_maxSims_clamp (nq maxSims : Nat) (h : nq ≤ 63) :
    clampMaxSims true .ComputationalBasis nq maxSims =
      min maxSims (2 ^ nq) := by
  unfold clampMaxSims
  simp [h]
  split <;> omega

/-- Witness for C8 at two non-ancillary qubits and ten requested
simulations. -/
theorem c8_witness :
    2 ≤ 63 ∧
      clampMaxSims true .ComputationalBasis 2 10 = min 10 (2 ^ 2) :=
  ⟨by decide, c8_maxSims_clamp 2 10 (by decide)⟩

/-- C7: after stripping idle qubits and reconciling ancillae, the two
circuits hold the same total number of qubits, for every pair of input
sizes and every sequence of strip decisions. -/
theorem c7_equal_qubit_counts (n1 n2 : Nat) (ds : List StripCase) :
    (normalizeQubitCounts n1 n2 ds).1 = (normalizeQubitCounts n1 n2 ds).2 := by
  have hsetup : ∀ a b : Nat,
      (setupAncillariesAndGarbage a b).1 =
        (setupAncillariesAndGarbage a b).2 := by
    intro a b
    simp only [setupAncillariesAndGarbage]
    split_ifs <;> simp <;> omega
  unfold normalizeQubitCounts
  exact hsetup _ _

/-- C5 counterexample: a non-empty dynamic circuit with
`transformDynamicCircuit = false` makes construction fail with a
`RuntimeError` (`std::runtime_error`), not with the `InvalidArgument` class
stated by the claim. -/
theorem c5_counterexample :
    managerConstructPasses true false false true false false =
        Except.error ExceptionType.RuntimeError ∧
      managerConstructPasses true false false true false false ≠
        Except.error ExceptionType.InvalidArgument := by
  refine ⟨rfl, ?_⟩
  intro h
  simp [managerConstructPasses, runOptimizationPasses] at h

/-- C5 (amended): for variable-free, not-both-empty circuits with a dynamic
circuit and `transformDynamicCircuit = false`, manager construction fails
with an invalid-input error of the RuntimeError class
(`std::runtime_error`). -/
theorem c5_dynamic_without_transform_runtime_error
    (qc1Empty qc2Empty dyn1 dyn2 : Bool)
    (hne : ¬(qc1Empty = true ∧ qc2Empty = true))
    (hdyn : dyn1 = true ∨ dyn2 = true) :
    managerConstructPasses true qc1Empty qc2Empty dyn1 dyn2 false =
      Except.error ExceptionType.RuntimeError := by
  unfold managerConstructPasses runOptimizationPasses
  rcases hdyn with h | h <;> cases qc1Empty <;> cases qc2Empty <;> simp_all

/-- Witness for the amended C5 at a concrete dynamic first circuit. -/
theorem c5_witness :
    (¬(false = true ∧ false = true)) ∧ (true = true ∨ false = true) ∧
      managerConstructPasses true false false true false false =
        Except.error ExceptionType.RuntimeError :=
  ⟨by decide, Or.inl rfl,
    c5_dynamic_without_transform_runtime_error false false true false
      (by decide) (Or.inl rfl)⟩

/-- Witness for C1 at a sequential run whose first simulation trial
completes with `NotEquivalent`. -/
theorem c1_witness :
    exSeqCtxNE.zxV ≠ EquivalenceCriterion.NotEquivalent ∧
      (ProcessType.Simulation, EquivalenceCriterion.NotEquivalent) ∈
        (runSequentialChecks exSeqCtxNE).trace ∧
      (runSequentialChecks exSeqCtxNE).verdict = .NotEquivalent :=
  ⟨by decide, by decide,
    c1_not_equivalent_short_circuits.2.2 exSeqCtxNE (by decide)
      .Simulation (by decide)⟩

/-- C3: a ZX completion with `ProbablyNotEquivalent` while the current
verdict is `ProbablyEquivalent` and all simulations have finished is
decisive with final verdict `NoInformation` — in the parallel fusion
directly, and in a sequential run in which the simulation trials all
reported probable equivalence. -/
theorem c3_contradictory_evidence_gives_up :
    (∀ (ctx : ParCtx) (st : ParState),
        st.results = .ProbablyEquivalent → st.performed = ctx.cfg.maxSims →
        handleCompleted ctx st .ZX .ProbablyNotEquivalent =
          { st with results := .NoInformation, done := true }) ∧
      (∀ ctx : SeqCtx,
        ctx.cfg.runSimulation = true → 0 < ctx.cfg.maxSims →
        (∀ i, i < ctx.cfg.maxSims → ctx.simV i ≠ .NoInformation ∧
          ctx.simV i ≠ .NotEquivalent) →
        ctx.cfg.onlySimulationCheckerConfigured = false →
        (ctx.cfg.runAlternating = true → ctx.altV = .NoInformation) →
        (ctx.cfg.runConstruction = true → ctx.conV = .NoInformation) →
        ctx.cfg.runZX = true → ctx.zxHandles = true →
        ctx.zxV = .ProbablyNotEquivalent →
        (runSequentialChecks ctx).verdict = .NoInformation ∧
          (runSequentialChecks ctx).performed = ctx.cfg.maxSims) := by
  constructor
  · intro ctx st h1 h2
    simp [handleCompleted, h1, h2]
  · intro ctx hsim hms hgood hOS halt hcon hzxf hzxh hzxv
    have hloop : seqSimLoop ctx.simV ctx.cfg.maxSims 0 =
        (none, ctx.cfg.maxSims) := by
      apply seqSimLoop_all_good
      intro j hj
      simpa using hgood j hj
    have hB : ¬(ctx.cfg.runAlternating = true ∧
        ¬ctx.altV = EquivalenceCriterion.NoInformation) := by
      rintro ⟨a, b⟩
      exact b (halt a)
    have hC : ¬(ctx.cfg.runConstruction = true ∧
        ¬ctx.conV = EquivalenceCriterion.NoInformation) := by
      rintro ⟨a, b⟩
      exact b (hcon a)
    simp [runSequentialChecks, hsim, hloop, hOS, hB, hC, hzxf, hzxh, hzxv,
      hms, Nat.pos_iff_ne_zero.mp hms]

/-- Witness for C3 at a concrete parallel state with one finished
simulation. -/
theorem c3_witness :
    (⟨.ProbablyEquivalent, 1, 1, [], false, false⟩ : ParState).results =
        .ProbablyEquivalent ∧
      (⟨.ProbablyEquivalent, 1, 1, [], false, false⟩ : ParState).performed =
        exParCtxSimZX.cfg.maxSims ∧
      handleCompleted exParCtxSimZX
          ⟨.ProbablyEquivalent, 1, 1, [], false, false⟩ .ZX
          .ProbablyNotEquivalent =
        { (⟨.ProbablyEquivalent, 1, 1, [], false, false⟩ : ParState) with
            results := .NoInformation, done := true } :=
  ⟨rfl, by decide,
    c3_contradictory_evidence_gives_up.1 exParCtxSimZX
      ⟨.ProbablyEquivalent, 1, 1, [], false, false⟩ rfl (by decide)⟩

/-- C4 counterexample: in the parallel runner a Construction checker
completing with `NoInformation` while the current verdict is
`ProbablyEquivalent` does not keep the current verdict and continue — it
overwrites the verdict with `NoInformation` and stops the run. -/
theorem c4_counterexample :
    (handleCompleted exParCtxSimZX
          ⟨.ProbablyEquivalent, 1, 1, [], false, false⟩ .Construction
          .NoInformation).results ≠
        (⟨.ProbablyEquivalent, 1, 1, [], false, false⟩ : ParState).results ∧
      (handleCompleted exParCtxSimZX
          ⟨.ProbablyEquivalent, 1, 1, [], false, false⟩ .Construction
          .NoInformation).done = true :=
  ⟨by decide, by decide⟩

/-- C4 (amended): a non-ZX engine completing with `NoInformation` is
decisive in the parallel runner, setting the final verdict to
`NoInformation`; in the sequential runner a simulation trial yielding
`NoInformation` ends the run with `NoInformation`, while an alternating or
construction checker yielding `NoInformation` keeps the current verdict and
the run continues with the remaining engines (here: the next engine's
verdict decides). -/
theorem c4_no_information_fusion :
    (∀ (ctx : ParCtx) (st : ParState) (t : ProcessType), t ≠ .ZX →
        handleCompleted ctx st t .NoInformation =
          { st with results := .NoInformation, done := true }) ∧
      (∀ (ctx : SeqCtx) (i : Nat),
        ctx.cfg.runSimulation = true → i < ctx.cfg.maxSims →
        (∀ j, j < i → ctx.simV j ≠ .NoInformation ∧
          ctx.simV j ≠ .NotEquivalent) →
        ctx.simV i = .NoInformation →
        (runSequentialChecks ctx).verdict = .NoInformation) ∧
      (∀ ctx : SeqCtx,
        ctx.cfg.runSimulation = false → ctx.cfg.runAlternating = true →
        ctx.altV = .NoInformation → ctx.cfg.runConstruction = true →
        ctx.conV ≠ .NoInformation →
        (runSequentialChecks ctx).verdict = ctx.conV) ∧
      (∀ ctx : SeqCtx,
        ctx.cfg.runSimulation = false →
        (ctx.cfg.runAlternating = true → ctx.altV = .NoInformation) →
        ctx.cfg.runConstruction = true → ctx.conV = .NoInformation →
        ctx.cfg.runZX = true → ctx.zxHandles = true →
        ctx.zxV = .Equivalent →
        (runSequentialChecks ctx).verdict = .Equivalent) := by
  refine ⟨?_, ?_, ?_, ?_⟩
  · intro ctx st t ht
    cases t
    case ZX => simp at ht
    all_goals simp [handleCompleted]
  · intro ctx i hsim hi hg hbad
    have hloop := seqSimLoop_early ctx.simV i ctx.cfg.maxSims 0 hi
      (fun j hj => by simpa using hg j hj) (by simpa using Or.inl hbad)
    simp only [Nat.zero_add] at hloop
    rw [hbad] at hloop
    simp [runSequentialChecks, hsim, hloop]
  · intro ctx hsim halt haltv hcon hconv
    have hB : ¬(ctx.cfg.runAlternating = true ∧
        ¬ctx.altV = EquivalenceCriterion.NoInformation) := by
      rintro ⟨-, b⟩
      exact b haltv
    simp [runSequentialChecks, hsim, hB, hcon, hconv]
  · intro ctx hsim halt hcon hconv hzxf hzxh hzxv
    have hB : ¬(ctx.cfg.runAlternating = true ∧
        ¬ctx.altV = EquivalenceCriterion.NoInformation) := by
      rintro ⟨a, b⟩
      exact b (halt a)
    have hC : ¬(ctx.cfg.runConstruction = true ∧
        ¬ctx.conV = EquivalenceCriterion.NoInformation) := by
      rintro ⟨-, b⟩
      exact b hconv
    simp [runSequentialChecks, hsim, hB, hC, hzxf, hzxh, hzxv]

/-- Witness for the amended C4: a sequential run where the construction
checker yields `NoInformation` and the run continues to the ZX checker,
which concludes `Equivalent`. -/
theorem c4_witness :
    exSeqCtxConZX.cfg.runSimulation = false ∧
      (exSeqCtxConZX.cfg.runAlternating = true →
        exSeqCtxConZX.altV = .NoInformation) ∧
      exSeqCtxConZX.cfg.runConstruction = true ∧
      exSeqCtxConZX.conV = .NoInformation ∧
      exSeqCtxConZX.cfg.runZX = true ∧ exSeqCtxConZX.zxHandles = true ∧
      exSeqCtxConZX.zxV = .Equivalent ∧
      (runSequentialChecks exSeqCtxConZX).verdict = .Equivalent :=
  ⟨rfl, fun h => absurd h (by decide), rfl, rfl, rfl, rfl, rfl,
    c4_no_information_fusion.2.2.2 exSeqCtxConZX rfl
      (fun h => absurd h (by decide)) rfl rfl rfl rfl rfl⟩

set_option maxHeartbeats 1000000 in
/-- C9: `performedSimulations ≤ startedSimulations ≤ maxSims` holds
initially and is preserved by every loop step of the parallel runner, with
both counters monotone and advancing by at most one per handled completion;
in a sequential run the final counters are equal and bounded by `maxSims`.
(The initial spawn phase performs its increments one spawn at a time; the
invariant already holds for the state the wait loop starts from.) -/
theorem c9_simulation_counter_invariants :
    (∀ ctx : ParCtx, (parInit ctx).performed = 0 ∧
        CounterInv ctx.cfg.maxSims (parInit ctx)) ∧
      (∀ (ctx : ParCtx) (st st2 : ParState) (c : Nat),
        CounterInv ctx.cfg.maxSims st → parStep ctx st c = .ok st2 →
        CounterInv ctx.cfg.maxSims st2 ∧
          st.performed ≤ st2.performed ∧
          st2.performed ≤ st.performed + 1 ∧
          st.started ≤ st2.started ∧ st2.started ≤ st.started + 1) ∧
      (∀ (ms : Nat) (st : ParState), CounterInv ms st →
        st.performed ≤ st.started ∧ st.started ≤ ms) ∧
      (∀ ctx : SeqCtx,
        (runSequentialChecks ctx).performed =
            (runSequentialChecks ctx).started ∧
          (runSequentialChecks ctx).performed ≤ ctx.cfg.maxSims) := by
  refine ⟨?_, ?_, ?_, ?_⟩
  · intro ctx
    refine ⟨rfl, ?_, ?_⟩
    · have e1 := countP_sim_ite_non (ctx.cfg.runAlternating = true)
        ProcessType.Alternating ctx.altOut (by decide)
      have e2 := countP_sim_ite_non (ctx.cfg.runConstruction = true)
        ProcessType.Construction ctx.conOut (by decide)
      have e3 := countP_sim_ite_non (ctx.runZXPar = true)
        ProcessType.ZX ctx.zxOut (by decide)
      have e4 := countP_sim_range ctx.simOut
      simp [parInit, ParState.runningSims, List.countP_append, e1, e2, e3,
        e4]
    · simp only [parInit]
      split_ifs <;> omega
  · intro ctx st st2 c hinv hstep
    obtain ⟨h1, h3⟩ := hinv
    simp only [parStep] at hstep
    by_cases hlen : st.running.length = 0
    · have hempty : st.running = [] := List.length_eq_zero.mp hlen
      simp only [hempty, List.getD_nil, List.eraseIdx_nil, Outcome.ok]
        at hstep
      norm_num at hstep
      have hco := handleCompleted_counters ctx { st with running := [] }
        .Simulation .NoInformation
        (by simp only [ParState.runningSims] at h1 ⊢
            simp only [hempty] at h1
            simpa using h1)
        (fun _ hv => absurd rfl hv) h3
      rw [hstep] at hco
      simpa using hco
    · have hpos : 0 < st.running.length := Nat.pos_of_ne_zero hlen
      have hlt : c % st.running.length < st.running.length :=
        Nat.mod_lt _ hpos
      set idx := c % st.running.length with hidx
      set proc := st.running.getD idx
        (ProcessType.Simulation, Outcome.ok .NoInformation) with hproc
      have hcount := countP_eraseIdx
        (fun p => decide (p.1 = ProcessType.Simulation)) st.running idx
        (ProcessType.Simulation, Outcome.ok .NoInformation) hlt
      rw [← hproc] at hcount
      by_cases hexc : proc.2.exc ≠ ExceptionType.None
      · rw [if_pos hexc] at hstep
        simp at hstep
      · rw [if_neg hexc] at hstep
        by_cases hcomp : (!proc.2.completed) = true
        · rw [if_pos hcomp] at hstep
          injection hstep with hstep2
          subst hstep2
          have hle := countP_eraseIdx_le
            (fun p => decide (p.1 = ProcessType.Simulation)) st.running idx
          simp only [ParState.runningSims] at h1
          refine ⟨⟨?_, ?_⟩, ?_, ?_, ?_, ?_⟩ <;>
            simp only [ParState.runningSims] <;> omega
        · rw [if_neg hcomp] at hstep
          injection hstep with hstep2
          subst hstep2
          by_cases hsim : proc.1 = ProcessType.Simulation
          · have hc2 : st.running.countP
                (fun p => decide (p.1 = ProcessType.Simulation)) =
                (st.running.eraseIdx idx).countP
                  (fun p => decide (p.1 = ProcessType.Simulation)) + 1 := by
              rw [hcount]
              simp [hsim]
            have hco := handleCompleted_counters ctx
              { st with running := st.running.eraseIdx idx }
              proc.1 proc.2.verdict
              (by simp only [ParState.runningSims] at h1 ⊢
                  omega)
              (by intro _ _
                  simp only [ParState.runningSims] at h1 ⊢
                  omega)
              h3
            simpa using hco
          · have hc2 : st.running.countP
                (fun p => decide (p.1 = ProcessType.Simulation)) =
                (st.running.eraseIdx idx).countP
                  (fun p => decide (p.1 = ProcessType.Simulation)) := by
              rw [hcount]
              simp [hsim]
            have hco := handleCompleted_counters ctx
              { st with running := st.running.eraseIdx idx }
              proc.1 proc.2.verdict
              (by simp only [ParState.runningSims] at h1 ⊢
                  omega)
              (fun hSim _ => absurd hSim hsim)
              h3
            simpa using hco
  · intro ms st hinv
    obtain ⟨h1, h3⟩ := hinv
    exact ⟨by omega, h3⟩
  · intro ctx
    have hb := seqSimLoop_le ctx.simV ctx.cfg.maxSims 0
    refine ⟨rfl, ?_⟩
    by_cases hrs : ctx.cfg.runSimulation = true
    · simpa [runSequentialChecks, hrs] using hb
    · simp [runSequentialChecks, hrs]

/-- Witness for C9: one loop step of a simulation-only parallel run with
two trials, where the first trial completes and a second is spawned. -/
theorem c9_witness :
    CounterInv exParCtxSimOnly.cfg.maxSims
        ⟨.NoInformation, 1, 0,
          [(.Simulation, Outcome.ok .ProbablyEquivalent)], false, false⟩ ∧
      parStep exParCtxSimOnly
          ⟨.NoInformation, 1, 0,
            [(.Simulation, Outcome.ok .ProbablyEquivalent)], false, false⟩
          0 =
        Except.ok ⟨.ProbablyEquivalent, 2, 1,
          [(.Simulation, Outcome.ok .ProbablyEquivalent)], false, false⟩ ∧
      CounterInv exParCtxSimOnly.cfg.maxSims
        ⟨.ProbablyEquivalent, 2, 1,
          [(.Simulation, Outcome.ok .ProbablyEquivalent)], false, false⟩ :=
  ⟨by simp only [CounterInv, ParState.runningSims]; decide, rfl,
    (c9_simulation_counter_invariants.2.1 exParCtxSimOnly
      ⟨.NoInformation, 1, 0,
        [(.Simulation, Outcome.ok .ProbablyEquivalent)], false, false⟩
      ⟨.ProbablyEquivalent, 2, 1,
        [(.Simulation, Outcome.ok .ProbablyEquivalent)], false, false⟩
      0 (by simp only [CounterInv, ParState.runningSims]; decide) rfl).1⟩

/-- C6 counterexample: a parallel run cut off by the deadline need not
yield `NoInformation`: after one `ProbablyEquivalent` simulation trial the
timeout ends this run with `ProbablyEquivalent`. -/
theorem c6_counterexample :
    (parRun exParCtxSimOnly [0] (parInit exParCtxSimOnly)).map
        (fun st => (st.results, st.timedOut)) =
      Except.ok (EquivalenceCriterion.ProbablyEquivalent, true) ∧
      EquivalenceCriterion.ProbablyEquivalent ≠ .NoInformation :=
  ⟨rfl, by decide⟩

/-- C6 (amended): expiry of the timeout never raises an exception: a timed
out `executeWithOptionalTimeout` call (the sequential and symbolic paths)
returns `NoInformation`, and a `waitForAny` timeout in the parallel loop
ends the run normally, keeping the verdict accumulated so far
(`NoInformation` only when nothing informative had completed). -/
theorem c6_timeout_is_not_an_exception :
    (∀ (spawnOk : Bool) (v : EquivalenceCriterion),
        executeWithOptionalTimeout true spawnOk none v = .NoInformation) ∧
      (∀ (ctx : ParCtx) (st : ParState),
        st.running.isEmpty = false → st.done = false →
        parRun ctx [] st =
          .ok { st with done := true, timedOut := true }) := by
  constructor
  · intro spawnOk v
    cases spawnOk <;> rfl
  · intro ctx st hrun hdone
    simp [parRun, hrun, hdone]

/-- Witness for the amended C6: the timed-out parallel run of the
counterexample, ending with its accumulated `ProbablyEquivalent`. -/
theorem c6_witness :
    (⟨.ProbablyEquivalent, 2, 1,
        [(.Simulation, Outcome.ok .ProbablyEquivalent)], false, false⟩ :
          ParState).running.isEmpty = false ∧
      (⟨.ProbablyEquivalent, 2, 1,
        [(.Simulation, Outcome.ok .ProbablyEquivalent)], false, false⟩ :
          ParState).done = false ∧
      parRun exParCtxSimOnly []
          ⟨.ProbablyEquivalent, 2, 1,
            [(.Simulation, Outcome.ok .ProbablyEquivalent)], false, false⟩ =
        .ok ⟨.ProbablyEquivalent, 2, 1,
          [(.Simulation, Outcome.ok .ProbablyEquivalent)], true, true⟩ :=
  ⟨rfl, rfl,
    c6_timeout_is_not_an_exception.2 exParCtxSimOnly
      ⟨.ProbablyEquivalent, 2, 1,
        [(.Simulation, Outcome.ok .ProbablyEquivalent)], false, false⟩
      rfl rfl⟩


set_option maxHeartbeats 1000000 in
/-- C2 (corrected): as stated, the claim is false — the parallel runner
gates the ZX checker only on ZX-transformability (line 497), while the
sequential runner additionally requires `ZXEquivalenceChecker::canHandle`
(line 799), which rejects circuits with non-garbage ancillae; moreover a
non-ZX `NoInformation` completion is decisive only in the parallel runner
(see `c2_counterexample` and C4).  The agreement does hold whenever
exactly one checker kind is configured: (1) simulation-only runs, for any
thread count `≥ 1` and any schedule that does not time out, provided
`maxSims < 2^64` and no trial is uninformative; (2) alternating-only runs;
(3) construction-only runs; (4) ZX-only runs in which the parallel
transformability test and the sequential `canHandle` test agree and the ZX
verdict is not `NotEquivalent` (`zxRun` never produces it, see
`zxRun_ne_notEquivalent`). -/
theorem c2_sequential_parallel_agreement :
    (∀ (nthreads ms : Nat) (simV : Nat → EquivalenceCriterion)
        (sched : List Nat) (stF : ParState),
        1 ≤ nthreads → ms < 2 ^ 64 →
        (∀ i, i < ms → simV i ≠ .NoInformation) →
        parRun (mkSimOnlyParCtx nthreads ms simV) sched
            (parInit (mkSimOnlyParCtx nthreads ms simV)) = .ok stF →
        stF.timedOut = false →
        stF.results =
          (runSequentialChecks (mkSimOnlySeqCtx nthreads ms simV)).verdict) ∧
    (∀ (nthreads : Nat) (a : EquivalenceCriterion) (sched : List Nat)
        (stF : ParState),
        parRun (mkAltOnlyParCtx nthreads a) sched
            (parInit (mkAltOnlyParCtx nthreads a)) = .ok stF →
        stF.timedOut = false →
        stF.results =
          (runSequentialChecks (mkAltOnlySeqCtx nthreads a)).verdict) ∧
    (∀ (nthreads : Nat) (a : EquivalenceCriterion) (sched : List Nat)
        (stF : ParState),
        parRun (mkConOnlyParCtx nthreads a) sched
            (parInit (mkConOnlyParCtx nthreads a)) = .ok stF →
        stF.timedOut = false →
        stF.results =
          (runSequentialChecks (mkConOnlySeqCtx nthreads a)).verdict) ∧
    (∀ (nthreads : Nat) (transf : Bool) (z : EquivalenceCriterion)
        (sched : List Nat) (stF : ParState),
        z ≠ .NotEquivalent →
        parRun (mkZXOnlyParCtx nthreads transf z) sched
            (parInit (mkZXOnlyParCtx nthreads transf z)) = .ok stF →
        stF.timedOut = false →
        stF.results =
          (runSequentialChecks
            (mkZXOnlySeqCtx nthreads transf z)).verdict) := by
  refine ⟨?_, ?_, ?_, ?_⟩
  · intro nthreads ms simV sched stF hnt hms hgood hrun htf
    rw [simOnly_seq nthreads ms simV hgood]
    exact simOnly_parRun nthreads ms simV hnt hgood sched _ stF
      (simOnly_parInit nthreads ms simV hms) hrun htf
  · intro nthreads a sched stF hrun htf
    rw [altOnly_seq nthreads a]
    exact altOnly_parRun nthreads a sched stF hrun htf
  · intro nthreads a sched stF hrun htf
    rw [conOnly_seq nthreads a]
    exact conOnly_parRun nthreads a sched stF hrun htf
  · intro nthreads transf z sched stF hz hrun htf
    exact zxOnly_parRun nthreads transf z hz sched stF hrun htf

/-- C2 counterexample: on a circuit pair with one non-garbage ancilla that
is nonetheless ZX-transformable (`canHandle` is `false` while the parallel
eligibility test passes, the ZX reduction succeeding with zero global
phase, `zxRun true ⟨false, _, true, true, false⟩ = Equivalent`), with the
simulation and ZX checkers configured (`maxSims = 1`, two threads) and the
simulation trial reporting `ProbablyEquivalent`, the parallel runner (under
the schedule in which the ZX worker finishes first) returns `Equivalent`
while the sequential runner returns `ProbablyEquivalent`. -/
theorem c2_counterexample :
    checkParallelResult exParCtxSimZX [0] = .ok .Equivalent ∧
    (runSequentialChecks exSeqCtxSimZX).verdict = .ProbablyEquivalent ∧
    zxCanHandle 1 0 1 0 true true = false ∧
    zxRun true ⟨false, true, true, true, false⟩ = .Equivalent ∧
    EquivalenceCriterion.Equivalent ≠ .ProbablyEquivalent :=
  ⟨rfl, rfl, rfl, rfl, by decide⟩

/-- Witness for C2: the simulation-only conjunct at one thread, one trial
reporting `ProbablyEquivalent`, schedule `[0]`: both runners conclude
`ProbablyEquivalent`. -/
theorem c2_witness :
    1 ≤ 1 ∧ (1 : Nat) < 2 ^ 64 ∧
    (∀ i : Nat, i < 1 →
      (fun _ : Nat => EquivalenceCriterion.ProbablyEquivalent) i ≠
        .NoInformation) ∧
    parRun (mkSimOnlyParCtx 1 1 (fun _ => .ProbablyEquivalent)) [0]
        (parInit (mkSimOnlyParCtx 1 1 (fun _ => .ProbablyEquivalent)))
      = .ok ⟨.ProbablyEquivalent, 1, 1, [], true, false⟩ ∧
    (⟨.ProbablyEquivalent, 1, 1, [], true, false⟩ : ParState).timedOut
      = false ∧
    (⟨.ProbablyEquivalent, 1, 1, [], true, false⟩ : ParState).results =
      (runSequentialChecks
        (mkSimOnlySeqCtx 1 1 (fun _ => .ProbablyEquivalent))).verdict :=
  ⟨by decide, by norm_num, by decide, by rfl, rfl,
    c2_sequential_parallel_agreement.1 1 1 (fun _ => .ProbablyEquivalent)
      [0] _ (by decide) (by norm_num) (by decide) (by rfl) rfl⟩

end QCEC
